import Mathlib

/-!
# Content-addressed blob store (`main.go`)

A shallow embedding of the store's core (`saveFile`, `getFilePath`, `fileExists`,
`verifyFileIntegrity`, `deleteFile`) and of the three HTTP handlers of `main`, followed by
the properties of the specification that concern them.

Modelling decisions.

* A Go `string` is a byte sequence (`GoString`); `len` and `s[:2]` count bytes.
* The functions of the Go standard library the program calls are modelled from their
  documentation: the three hash functions, `hex.EncodeToString`, `filepath.Join` and
  `filepath.Clean`. The store functions take the hash functions as a parameter (`Hashers`),
  so the theorems hold for any three functions of the right digest sizes; `goHashers` is
  the instance with MD5, SHA-1 and SHA-256 themselves.
* The file system is a finite table from cleaned relative paths to nodes; the `os` calls the
  program makes are functions on it. A call can also fail for a reason outside the table
  (permissions, a full disk, a failing device): such outcomes are inputs (`Option Errno`).
* A Go map is the list of its entries in the order `range` visits them.
* A run-time panic is the `Go.panic` outcome.
* The mutex `mu` only serialises concurrent requests; the model runs one request at a time.
-/

namespace BlobStore

/-! ## Strings -/

/-- A Go `string` (or `[]byte`): a sequence of bytes. -/
abbrev GoString := List UInt8

/-- The bytes of a string literal of the Go source (Go source text is UTF-8). -/
def str (s : String) : GoString := s.toUTF8.data.toList

deriving instance DecidableEq for Except

/-- Outcome of a Go computation that may abort with a run-time panic. -/
inductive Go (α : Type) where
  | ret (a : α)
  | panic
  deriving DecidableEq, Repr

/-- The slice expression `s[:n]` of Go; out of range bounds are a run-time panic. -/
def sliceTo (s : GoString) (n : Nat) : Go GoString :=
  if n ≤ s.length then Go.ret (s.take n) else Go.panic

/-- The digit table of `encoding/hex`. -/
def hextable : GoString := str "0123456789abcdef"

/-- One digit of `hextable`. -/
def hexDigit (n : Nat) : UInt8 := hextable.getD n 0

/-- Go `hex.EncodeToString`: two lowercase digits per byte, `hextable[v>>4]` then
`hextable[v&0x0f]`. -/
def hexEncodeToString (src : GoString) : GoString :=
  src.flatMap (fun v => [hexDigit (v >>> 4).toNat, hexDigit (v &&& 0x0f).toNat])

/-- The three hash functions of the Go standard library the program uses, each taken as the
function from the bytes written to the value of `Sum(nil)`, with the digest sizes the
library fixes (`md5.Size`, `sha1.Size`, `sha256.Size`). -/
structure Hashers where
  md5 : GoString → GoString
  sha1 : GoString → GoString
  sha256 : GoString → GoString
  md5_size : ∀ b, (md5 b).length = 16
  sha1_size : ∀ b, (sha1 b).length = 20
  sha256_size : ∀ b, (sha256 b).length = 32

/-! ## `crypto/md5`, `crypto/sha1`, `crypto/sha256` -/

namespace crypto

/-- A number as a 32-bit word. -/
def word (x : Nat) : Nat := x % 4294967296

/-- Rotation of a 32-bit word to the left. -/
def rotl (x n : Nat) : Nat := word ((x <<< n) ||| (x >>> (32 - n)))

/-- Rotation of a 32-bit word to the right. -/
def rotr (x n : Nat) : Nat := word ((x >>> n) ||| (x <<< (32 - n)))

/-- Bitwise complement of a 32-bit word. -/
def compl (x : Nat) : Nat := 4294967295 - word x

/-- The `k` low bytes of a number, the most significant first. -/
def bigEndian (n : Nat) : Nat → GoString
  | 0 => []
  | k + 1 => UInt8.ofNat (n >>> (8 * k)) :: bigEndian n k

/-- The `k` low bytes of a number, the least significant first. -/
def littleEndian (n : Nat) : Nat → GoString
  | 0 => []
  | k + 1 => UInt8.ofNat n :: littleEndian (n >>> 8) k

/-- The 32-bit words of a block, each of four bytes, the most significant first. -/
def wordsBE : GoString → List Nat
  | a :: b :: c :: d :: t =>
    (a.toNat * 16777216 + b.toNat * 65536 + c.toNat * 256 + d.toNat) :: wordsBE t
  | _ => []

/-- The 32-bit words of a block, each of four bytes, the least significant first. -/
def wordsLE : GoString → List Nat
  | a :: b :: c :: d :: t =>
    (d.toNat * 16777216 + c.toNat * 65536 + b.toNat * 256 + a.toNat) :: wordsLE t
  | _ => []

/-- The padding of a message of `l` bytes up to a number of whole 64-byte blocks, the
8 bytes of the length in bits not included: the byte `0x80`, then zero bytes. -/
def padding (l : Nat) : GoString := 128 :: List.replicate ((119 - l % 64) % 64) 0

/-- The blocks of a padded message run through a compression function, `n` of them. -/
def blocks {σ : Type} (compress : σ → GoString → σ) : Nat → σ → GoString → σ
  | 0, s, _ => s
  | n + 1, s, m => blocks compress n (compress s (m.take 64)) (m.drop 64)

end crypto

namespace sha256

open crypto

/-- The round constants of SHA-256. -/
def K : List Nat := [
  0x428a2f98, 0x71374491, 0xb5c0fbcf, 0xe9b5dba5, 0x3956c25b, 0x59f111f1, 0x923f82a4, 0xab1c5ed5,
  0xd807aa98, 0x12835b01, 0x243185be, 0x550c7dc3, 0x72be5d74, 0x80deb1fe, 0x9bdc06a7, 0xc19bf174,
  0xe49b69c1, 0xefbe4786, 0x0fc19dc6, 0x240ca1cc, 0x2de92c6f, 0x4a7484aa, 0x5cb0a9dc, 0x76f988da,
  0x983e5152, 0xa831c66d, 0xb00327c8, 0xbf597fc7, 0xc6e00bf3, 0xd5a79147, 0x06ca6351, 0x14292967,
  0x27b70a85, 0x2e1b2138, 0x4d2c6dfc, 0x53380d13, 0x650a7354, 0x766a0abb, 0x81c2c92e, 0x92722c85,
  0xa2bfe8a1, 0xa81a664b, 0xc24b8b70, 0xc76c51a3, 0xd192e819, 0xd6990624, 0xf40e3585, 0x106aa070,
  0x19a4c116, 0x1e376c08, 0x2748774c, 0x34b0bcb5, 0x391c0cb3, 0x4ed8aa4a, 0x5b9cca4f, 0x682e6ff3,
  0x748f82ee, 0x78a5636f, 0x84c87814, 0x8cc70208, 0x90befffa, 0xa4506ceb, 0xbef9a3f7, 0xc67178f2]

/-- The eight working words of SHA-256. -/
structure State where
  a : Nat
  b : Nat
  c : Nat
  d : Nat
  e : Nat
  f : Nat
  g : Nat
  h : Nat

/-- The initial hash value of SHA-256. -/
def init : State :=
  ⟨0x6a09e667, 0xbb67ae85, 0x3c6ef372, 0xa54ff53a, 0x510e527f, 0x9b05688c, 0x1f83d9ab, 0x5be0cd19⟩

/-- One round of the compression function, on a round constant and a schedule word. -/
def round (s : State) (kw : Nat × Nat) : State :=
  let s1 := rotr s.e 6 ^^^ rotr s.e 11 ^^^ rotr s.e 25
  let ch := (s.e &&& s.f) ^^^ (compl s.e &&& s.g)
  let t1 := word (s.h + s1 + ch + kw.1 + kw.2)
  let s0 := rotr s.a 2 ^^^ rotr s.a 13 ^^^ rotr s.a 22
  let maj := (s.a &&& s.b) ^^^ (s.a &&& s.c) ^^^ (s.b &&& s.c)
  let t2 := word (s0 + maj)
  ⟨word (t1 + t2), s.a, s.b, s.c, word (s.d + t1), s.e, s.f, s.g⟩

/-- The message schedule extended by `n` words; `w` holds the words so far, the last one
first. -/
def schedule : Nat → List Nat → List Nat
  | 0, w => w
  | n + 1, w =>
    let w2 := w.getD 1 0
    let w7 := w.getD 6 0
    let w15 := w.getD 14 0
    let w16 := w.getD 15 0
    let s0 := rotr w15 7 ^^^ rotr w15 18 ^^^ (w15 >>> 3)
    let s1 := rotr w2 17 ^^^ rotr w2 19 ^^^ (w2 >>> 10)
    schedule n (word (w16 + s0 + w7 + s1) :: w)

/-- The compression function of SHA-256 on one block of 64 bytes. -/
def compress (s : State) (block : GoString) : State :=
  let w := (schedule 48 (wordsBE block).reverse).reverse
  let r := (K.zip w).foldl round s
  ⟨word (s.a + r.a), word (s.b + r.b), word (s.c + r.c), word (s.d + r.d),
    word (s.e + r.e), word (s.f + r.f), word (s.g + r.g), word (s.h + r.h)⟩

/-- The SHA-256 digest of a message (FIPS 180-4): what `Sum(nil)` of a `sha256.New()` hash
returns once the message is written to it. -/
def Sum (m : GoString) : GoString :=
  let p := m ++ padding m.length ++ bigEndian (8 * m.length) 8
  let s := blocks compress (p.length / 64) init p
  bigEndian s.a 4 ++ bigEndian s.b 4 ++ bigEndian s.c 4 ++ bigEndian s.d 4 ++
    bigEndian s.e 4 ++ bigEndian s.f 4 ++ bigEndian s.g 4 ++ bigEndian s.h 4

end sha256

namespace sha1

open crypto

/-- The five working words of SHA-1. -/
structure State where
  a : Nat
  b : Nat
  c : Nat
  d : Nat
  e : Nat

/-- The initial hash value of SHA-1. -/
def init : State := ⟨0x67452301, 0xefcdab89, 0x98badcfe, 0x10325476, 0xc3d2e1f0⟩

/-- One round of the compression function, on the round number and a schedule word. -/
def round (s : State) (iw : Nat × Nat) : State :=
  let i := iw.1
  let f :=
    if i < 20 then (s.b &&& s.c) ||| (compl s.b &&& s.d)
    else if i < 40 then s.b ^^^ s.c ^^^ s.d
    else if i < 60 then (s.b &&& s.c) ||| (s.b &&& s.d) ||| (s.c &&& s.d)
    else s.b ^^^ s.c ^^^ s.d
  let k :=
    if i < 20 then 0x5a827999
    else if i < 40 then 0x6ed9eba1
    else if i < 60 then 0x8f1bbcdc
    else 0xca62c1d6
  ⟨word (rotl s.a 5 + f + s.e + k + iw.2), s.a, rotl s.b 30, s.c, s.d⟩

/-- The message schedule extended by `n` words; `w` holds the words so far, the last one
first. -/
def schedule : Nat → List Nat → List Nat
  | 0, w => w
  | n + 1, w =>
    schedule n (rotl (w.getD 2 0 ^^^ w.getD 7 0 ^^^ w.getD 13 0 ^^^ w.getD 15 0) 1 :: w)

/-- The compression function of SHA-1 on one block of 64 bytes. -/
def compress (s : State) (block : GoString) : State :=
  let w := (schedule 64 (wordsBE block).reverse).reverse
  let r := ((List.range 80).zip w).foldl round s
  ⟨word (s.a + r.a), word (s.b + r.b), word (s.c + r.c), word (s.d + r.d), word (s.e + r.e)⟩

/-- The SHA-1 digest of a message (FIPS 180-4): what `Sum(nil)` of a `sha1.New()` hash
returns once the message is written to it. -/
def Sum (m : GoString) : GoString :=
  let p := m ++ padding m.length ++ bigEndian (8 * m.length) 8
  let s := blocks compress (p.length / 64) init p
  bigEndian s.a 4 ++ bigEndian s.b 4 ++ bigEndian s.c 4 ++ bigEndian s.d 4 ++ bigEndian s.e 4

end sha1

namespace md5

open crypto

/-- The sine table of MD5. -/
def K : List Nat := [
  0xd76aa478, 0xe8c7b756, 0x242070db, 0xc1bdceee, 0xf57c0faf, 0x4787c62a, 0xa8304613, 0xfd469501,
  0x698098d8, 0x8b44f7af, 0xffff5bb1, 0x895cd7be, 0x6b901122, 0xfd987193, 0xa679438e, 0x49b40821,
  0xf61e2562, 0xc040b340, 0x265e5a51, 0xe9b6c7aa, 0xd62f105d, 0x02441453, 0xd8a1e681, 0xe7d3fbc8,
  0x21e1cde6, 0xc33707d6, 0xf4d50d87, 0x455a14ed, 0xa9e3e905, 0xfcefa3f8, 0x676f02d9, 0x8d2a4c8a,
  0xfffa3942, 0x8771f681, 0x6d9d6122, 0xfde5380c, 0xa4beea44, 0x4bdecfa9, 0xf6bb4b60, 0xbebfbc70,
  0x289b7ec6, 0xeaa127fa, 0xd4ef3085, 0x04881d05, 0xd9d4d039, 0xe6db99e5, 0x1fa27cf8, 0xc4ac5665,
  0xf4292244, 0x432aff97, 0xab9423a7, 0xfc93a039, 0x655b59c3, 0x8f0ccc92, 0xffeff47d, 0x85845dd1,
  0x6fa87e4f, 0xfe2ce6e0, 0xa3014314, 0x4e0811a1, 0xf7537e82, 0xbd3af235, 0x2ad7d2bb, 0xeb86d391]

/-- The rotation amounts of MD5, by round. -/
def shifts : List Nat := [
  7, 12, 17, 22, 7, 12, 17, 22, 7, 12, 17, 22, 7, 12, 17, 22,
  5, 9, 14, 20, 5, 9, 14, 20, 5, 9, 14, 20, 5, 9, 14, 20,
  4, 11, 16, 23, 4, 11, 16, 23, 4, 11, 16, 23, 4, 11, 16, 23,
  6, 10, 15, 21, 6, 10, 15, 21, 6, 10, 15, 21, 6, 10, 15, 21]

/-- The four working words of MD5. -/
structure State where
  a : Nat
  b : Nat
  c : Nat
  d : Nat

/-- The initial state of MD5. -/
def init : State := ⟨0x67452301, 0xefcdab89, 0x98badcfe, 0x10325476⟩

/-- One round of the compression function on the words `m` of the block, for the round
number `i`. -/
def round (m : List Nat) (s : State) (i : Nat) : State :=
  let f :=
    if i < 16 then (s.b &&& s.c) ||| (compl s.b &&& s.d)
    else if i < 32 then (s.d &&& s.b) ||| (compl s.d &&& s.c)
    else if i < 48 then s.b ^^^ s.c ^^^ s.d
    else s.c ^^^ (s.b ||| compl s.d)
  let g :=
    if i < 16 then i
    else if i < 32 then (5 * i + 1) % 16
    else if i < 48 then (3 * i + 5) % 16
    else (7 * i) % 16
  let x := word (f + s.a + K.getD i 0 + m.getD g 0)
  ⟨s.d, word (s.b + rotl x (shifts.getD i 0)), s.b, s.c⟩

/-- The compression function of MD5 on one block of 64 bytes. -/
def compress (s : State) (block : GoString) : State :=
  let r := (List.range 64).foldl (round (wordsLE block)) s
  ⟨word (s.a + r.a), word (s.b + r.b), word (s.c + r.c), word (s.d + r.d)⟩

/-- The MD5 digest of a message (RFC 1321): what `Sum(nil)` of an `md5.New()` hash returns
once the message is written to it. -/
def Sum (m : GoString) : GoString :=
  let p := m ++ padding m.length ++ littleEndian (8 * m.length) 8
  let s := blocks compress (p.length / 64) init p
  littleEndian s.a 4 ++ littleEndian s.b 4 ++ littleEndian s.c 4 ++ littleEndian s.d 4

end md5

/-- The hash functions of the Go standard library. -/
def goHashers : Hashers where
  md5 := md5.Sum
  sha1 := sha1.Sum
  sha256 := sha256.Sum
  md5_size := by
    intro b
    have hlen : ∀ k n, (crypto.littleEndian n k).length = k := by
      intro k
      induction k with
      | zero => intro n; rfl
      | succ k ih => intro n; simp [crypto.littleEndian, ih]
    simp [md5.Sum, hlen]
  sha1_size := by
    intro b
    have hlen : ∀ k n, (crypto.bigEndian n k).length = k := by
      intro k
      induction k with
      | zero => intro n; rfl
      | succ k ih => intro n; simp [crypto.bigEndian, ih]
    simp [sha1.Sum, hlen]
  sha256_size := by
    intro b
    have hlen : ∀ k n, (crypto.bigEndian n k).length = k := by
      intro k
      induction k with
      | zero => intro n; rfl
      | succ k ih => intro n; simp [crypto.bigEndian, ih]
    simp [sha256.Sum, hlen]

/-! ## `path/filepath` (Unix) -/

namespace strings

/-- Go `strings.Split(s, "/")`. -/
def splitSlash : GoString → List GoString
  | [] => [[]]
  | c :: t =>
    if c = 47 then [] :: splitSlash t
    else
      match splitSlash t with
      | [] => [[c]]
      | e :: es => (c :: e) :: es

/-- Go `strings.Join(elems, "/")`. -/
def joinSlash : List GoString → GoString
  | [] => []
  | [e] => e
  | e :: es => e ++ 47 :: joinSlash es

end strings

namespace filepath

/-- One turn of the loop of `filepath.Clean`, on one path element. `out` holds the elements
written so far, the last one first. An empty element and `.` are skipped; `..` removes the
last element when that is a real one (`out.w > dotdot`), is appended when the path is not
rooted and nothing can be removed, and is dropped at the root; any other element is
appended. -/
def cleanElem (rooted : Bool) (out : List GoString) (e : GoString) : List GoString :=
  if e = [] then out
  else if e = str "." then out
  else if e = str ".." then
    match out with
    | [] => if rooted then out else [e]
    | top :: below =>
      if top = str ".." then (if rooted then out else e :: out) else below
  else e :: out

/-- Go `filepath.Clean` on Unix: the shortest path equivalent to `path` by purely lexical
processing. -/
def Clean (path : GoString) : GoString :=
  if path = [] then str "."
  else
    let rooted := path.head? = some 47
    let out := (strings.splitSlash path).foldl (cleanElem rooted) []
    if rooted then 47 :: strings.joinSlash out.reverse
    else if out = [] then str "."
    else strings.joinSlash out.reverse

/-- Go `filepath.Join` on Unix: the elements from the first non-empty one on, joined with
the separator and cleaned; the empty string when every element is empty. -/
def Join : List GoString → GoString
  | [] => []
  | e :: es => if e = [] then Join es else Clean (strings.joinSlash (e :: es))

end filepath

/-! ## The store's path resolver -/

/-- Source: `const storeDir = "./store"`. -/
def storeDir : GoString := str "./store"

/-- Source: `getFilePath`. The slice `fileHash[:2]` panics on a string shorter than two
bytes. -/
def getFilePath (fileHash : GoString) : Go GoString :=
  match sliceTo fileHash 2 with
  | Go.panic => Go.panic
  | Go.ret shard => Go.ret (filepath.Join [storeDir, shard, fileHash])

/-! ## Errors and the file system -/

/-- The error numbers of the operating system the model distinguishes. -/
inductive Errno where
  | ENOENT
  | ENOTDIR
  | EISDIR
  | ENOTEMPTY
  | EACCES
  | ENOSPC
  deriving DecidableEq, Repr

/-- The text of an error number. -/
def Errno.text : Errno → GoString
  | .ENOENT => str "no such file or directory"
  | .ENOTDIR => str "not a directory"
  | .EISDIR => str "is a directory"
  | .ENOTEMPTY => str "directory not empty"
  | .EACCES => str "permission denied"
  | .ENOSPC => str "no space left on device"

/-- A Go `error` value: one made by `errors.New` or `fmt.Errorf` (or any error known only by
its message), or the `*fs.PathError` of a failed `os` call. -/
inductive GoError where
  | new (msg : GoString)
  | path (op : GoString) (name : GoString) (errno : Errno)
  deriving DecidableEq, Repr

/-- The method `Error()` of an error. -/
def GoError.Error : GoError → GoString
  | .new msg => msg
  | .path op name errno => op ++ str " " ++ name ++ str ": " ++ errno.text

/-- Go `os.IsNotExist`. -/
def IsNotExist : GoError → Bool
  | .path _ _ .ENOENT => true
  | _ => false

/-- A node of the file system: a regular file with its content, or a directory. -/
inductive Node where
  | file (content : GoString)
  | dir
  deriving DecidableEq, Repr

/-- The file system: the nodes that exist, by cleaned path relative to the working
directory of the process. The first entry of a path is the one in force. -/
abbrev FS := List (GoString × Node)

/-- The node at a path. -/
def fsGet : FS → GoString → Option Node
  | [], _ => none
  | (q, n) :: t, p => if q = p then some n else fsGet t p

/-- Put a node at a path, in place when the path is present already. -/
def fsSet : FS → GoString → Node → FS
  | [], p, n => [(p, n)]
  | (q, m) :: t, p, n => if q = p then (p, n) :: t else (q, m) :: fsSet t p n

/-- Remove a path: every entry of it. -/
def fsErase : FS → GoString → FS
  | [], _ => []
  | (q, n) :: t, p => if q = p then fsErase t p else (q, n) :: fsErase t p

/-- The directories on the way to a path, outermost first: each non-empty part of the path
that ends right before a separator. `pre` is the part of the path already passed. -/
def ancestorsFrom (pre : GoString) : GoString → List GoString
  | [] => []
  | c :: t =>
    if c = 47 ∧ pre ≠ [] then pre :: ancestorsFrom (pre ++ [c]) t
    else ancestorsFrom (pre ++ [c]) t

/-- The directories on the way to a path. -/
def ancestors (p : GoString) : List GoString := ancestorsFrom [] p

/-- Path resolution up to the last element: each directory on the way must exist and be a
directory. The result is the error number of the first one that is not. -/
def walk (fs : FS) : List GoString → Option Errno
  | [] => none
  | a :: rest =>
    match fsGet fs a with
    | none => some .ENOENT
    | some (.file _) => some .ENOTDIR
    | some .dir => walk fs rest

/-- Go `os.Stat`. `fault` is a failure for a reason outside the table. -/
def Stat (fs : FS) (fault : Option Errno) (name : GoString) : Except GoError Node :=
  match fault with
  | some e => .error (.path (str "stat") name e)
  | none =>
    match walk fs (ancestors name) with
    | some e => .error (.path (str "stat") name e)
    | none =>
      match fsGet fs name with
      | none => .error (.path (str "stat") name .ENOENT)
      | some n => .ok n

/-- The chain of `Mkdir` calls of `os.MkdirAll`, outermost directory first: a directory that
exists is kept, a missing one is made, a regular file in the way is the error. -/
def mkdirChain (fs : FS) : List GoString → FS × Option GoError
  | [] => (fs, none)
  | a :: rest =>
    match fsGet fs a with
    | some .dir => mkdirChain fs rest
    | some (.file _) => (fs, some (.path (str "mkdir") a .ENOTDIR))
    | none => mkdirChain (fsSet fs a .dir) rest

/-- Go `os.MkdirAll`: makes the directory and every missing parent; a directory that exists
already is no error. Returns the file system after the call and the error, if any. -/
def MkdirAll (fs : FS) (fault : Option Errno) (name : GoString) : FS × Option GoError :=
  match fault with
  | some e => (fs, some (.path (str "mkdir") name e))
  | none => mkdirChain fs (ancestors name ++ [name])

/-- Go `os.Create`: opens the file for writing, creating it when missing and truncating it
when present. -/
def Create (fs : FS) (fault : Option Errno) (name : GoString) : Except GoError FS :=
  match fault with
  | some e => .error (.path (str "open") name e)
  | none =>
    match walk fs (ancestors name) with
    | some e => .error (.path (str "open") name e)
    | none =>
      match fsGet fs name with
      | some .dir => .error (.path (str "open") name .EISDIR)
      | _ => .ok (fsSet fs name (.file []))

/-- Go `io.Copy(fileDest, file)` into the file just created at `name`: `data` is what the
source still has to give. With `fault = some (n, e)` the copy stops with the error `e` once
`n` bytes are written (a failed read of the source or a failed write); the bytes written
before stay in the file. -/
def copyToFile (fs : FS) (fault : Option (Nat × GoError)) (name : GoString) (data : GoString) :
    FS × Option GoError :=
  match fault with
  | some (n, e) => (fsSet fs name (.file (data.take n)), some e)
  | none => (fsSet fs name (.file data), none)

/-- Go `os.Open`: opens a file or a directory for reading. -/
def Open (fs : FS) (fault : Option Errno) (name : GoString) : Except GoError Node :=
  match fault with
  | some e => .error (.path (str "open") name e)
  | none =>
    match walk fs (ancestors name) with
    | some e => .error (.path (str "open") name e)
    | none =>
      match fsGet fs name with
      | none => .error (.path (str "open") name .ENOENT)
      | some n => .ok n

/-- Reading an open file to its end, as `io.Copy(hasher, file)` does: the content of a
regular file; reading a directory is an error. -/
def readAll (node : Node) (fault : Option Errno) (name : GoString) : Except GoError GoString :=
  match fault with
  | some e => .error (.path (str "read") name e)
  | none =>
    match node with
    | .dir => .error (.path (str "read") name .EISDIR)
    | .file content => .ok content

/-- Go `os.Remove`: removes a file or an empty directory. -/
def Remove (fs : FS) (fault : Option Errno) (name : GoString) : FS × Option GoError :=
  match fault with
  | some e => (fs, some (.path (str "remove") name e))
  | none =>
    match walk fs (ancestors name) with
    | some e => (fs, some (.path (str "remove") name e))
    | none =>
      match fsGet fs name with
      | none => (fs, some (.path (str "remove") name .ENOENT))
      | some (.file _) => (fsErase fs name, none)
      | some .dir =>
        if fs.any (fun e => (name ++ [47]).isPrefixOf e.1) then
          (fs, some (.path (str "remove") name .ENOTEMPTY))
        else (fsErase fs name, none)

/-! ## The store -/

/-- The uploaded file as `saveFile` uses it (`*multipart.FileHeader`): its bytes, and what
`Open`, the reading pass and `Seek` answer. -/
structure Upload where
  content : GoString
  openErr : Option GoError
  readErr : Option GoError
  seekErr : Option GoError
  deriving DecidableEq, Repr

/-- What the file system calls of `saveFile` answer for reasons outside the table. -/
structure SaveFaults where
  mkdirAll : Option Errno
  create : Option Errno
  copy : Option (Nat × GoError)
  deriving DecidableEq, Repr

/-- A call of one of the two callbacks of `saveFile`. -/
inductive Hook where
  | pre
  | post
  deriving DecidableEq, Repr

/-- What a call of `saveFile` leaves: what it returns (or a panic), the file system, and
the callbacks it has called. -/
structure Saved where
  result : Go (Except GoError GoString)
  fs : FS
  hooks : List Hook

/-- Index expression `m[k]` on a `map[string]string`: the empty string for a missing key. -/
def mapIndex (m : List (GoString × GoString)) (k : GoString) : GoString :=
  match m.find? (fun kv => kv.1 = k) with
  | some kv => kv.2
  | none => []

/-- The map `calculatedHashes` of `saveFile`. -/
def calculatedHashes (H : Hashers) (content : GoString) : List (GoString × GoString) :=
  [ (str "md5", hexEncodeToString (H.md5 content)),
    (str "sha1", hexEncodeToString (H.sha1 content)),
    (str "sha256", hexEncodeToString (H.sha256 content)) ]

/-- The loop `for hashType, clientHash := range clientHashes` of `saveFile`: the key of the
first entry visited whose value is not the calculated one. -/
def firstMismatch (calculated : List (GoString × GoString)) :
    List (GoString × GoString) → Option GoString
  | [] => none
  | (hashType, clientHash) :: rest =>
    if mapIndex calculated hashType ≠ clientHash then some hashType
    else firstMismatch calculated rest

/-- Source: `saveFile`. `clientHashes` lists the entries of the map in the order the
`range` loop visits them; a callback is `true` when it is not `nil`. -/
def saveFile (H : Hashers) (fs : FS) (env : SaveFaults) (fileHeader : Upload)
    (preCallback postCallback : Bool) (clientHashes : List (GoString × GoString)) : Saved :=
  match fileHeader.openErr with
  | some err => ⟨.ret (.error err), fs, []⟩
  | none =>
  match fileHeader.readErr with
  | some err => ⟨.ret (.error err), fs, []⟩
  | none =>
  let calculated := calculatedHashes H fileHeader.content
  match firstMismatch calculated clientHashes with
  | some hashType => ⟨.ret (.error (.new (hashType ++ str " hash mismatch"))), fs, []⟩
  | none =>
  let fileHash := mapIndex calculated (str "sha256")
  match sliceTo fileHash 2 with
  | .panic => ⟨.panic, fs, []⟩
  | .ret shard =>
  let subDir := filepath.Join [storeDir, shard]
  match MkdirAll fs env.mkdirAll subDir with
  | (fs1, some err) => ⟨.ret (.error err), fs1, []⟩
  | (fs1, none) =>
  let filePath := filepath.Join [subDir, fileHash]
  let hooks := if preCallback then [Hook.pre] else []
  match Create fs1 env.create filePath with
  | .error err => ⟨.ret (.error err), fs1, hooks⟩
  | .ok fs2 =>
  let offset := match fileHeader.seekErr with
    | none => 0
    | some _ => fileHeader.content.length
  match copyToFile fs2 env.copy filePath (fileHeader.content.drop offset) with
  | (fs3, some err) => ⟨.ret (.error err), fs3, hooks⟩
  | (fs3, none) =>
    ⟨.ret (.ok fileHash), fs3, hooks ++ (if postCallback then [Hook.post] else [])⟩

/-- Source: `fileExists`. -/
def fileExists (fs : FS) (fault : Option Errno) (filePath : GoString) : Bool :=
  match Stat fs fault filePath with
  | .ok _ => true
  | .error err => !IsNotExist err

/-- What the file system calls of `verifyFileIntegrity` and of the download handler answer
for reasons outside the table. -/
structure ReadFaults where
  stat : Option Errno
  openFile : Option Errno
  read : Option Errno
  deriving DecidableEq, Repr

/-- Source: `verifyFileIntegrity`; `none` is the `nil` error. -/
def verifyFileIntegrity (H : Hashers) (fs : FS) (env : ReadFaults)
    (filePath expectedHash : GoString) : Option GoError :=
  match Open fs env.openFile filePath with
  | .error err => some err
  | .ok file =>
    match readAll file env.read filePath with
    | .error err => some err
    | .ok content =>
      let calculatedHash := hexEncodeToString (H.sha256 content)
      if calculatedHash ≠ expectedHash then some (.new (str "file integrity check failed"))
      else none

/-- Source: `deleteFile`. -/
def deleteFile (fs : FS) (fault : Option Errno) (filePath : GoString) : FS × Option GoError :=
  Remove fs fault filePath

/-! ## The HTTP handlers of `main` -/

/-- What a handler answers: a JSON object of one key with a status code, or the file that
`c.SendFile` serves. -/
inductive Response where
  | json (status : Nat) (key : GoString) (value : GoString)
  | sendFile (name : GoString)
  deriving DecidableEq, Repr

/-- The keys of the map literal `clientHashes` of the upload handler. -/
def claimKeys : List GoString := [str "md5", str "sha1", str "sha256"]

/-- The map `clientHashes` the upload handler passes to `saveFile`: one entry per key with
the form value of that key, the entries with an empty value deleted. `keys` is the order
in which the runtime keeps the three keys, `form` is `c.FormValue`. -/
def uploadClaims (keys : List GoString) (form : GoString → GoString) :
    List (GoString × GoString) :=
  (keys.map (fun k => (k, form k))).filter (fun kv => kv.2 ≠ [])

/-- Source: the handler of `POST /upload`. `fileHeader` is `none` when `c.FormFile` fails.
Returns the response (or a panic) and the file system after the request. -/
def upload (H : Hashers) (fs : FS) (env : SaveFaults) (fileHeader : Option Upload)
    (keys : List GoString) (form : GoString → GoString) : Go Response × FS :=
  match fileHeader with
  | none => (.ret (.json 400 (str "error") (str "No file part in the request")), fs)
  | some fh =>
    let saved := saveFile H fs env fh true true (uploadClaims keys form)
    match saved.result with
    | .panic => (.panic, saved.fs)
    | .ret (.error err) => (.ret (.json 500 (str "error") err.Error), saved.fs)
    | .ret (.ok fileHash) => (.ret (.json 201 (str "hash") fileHash), saved.fs)

/-- Source: the handler of `GET /download/:fileHash`. -/
def download (H : Hashers) (fs : FS) (env : ReadFaults) (fileHash : GoString) : Go Response :=
  match getFilePath fileHash with
  | .panic => .panic
  | .ret filePath =>
    if !fileExists fs env.stat filePath then
      .ret (.json 404 (str "error") (str "File not found"))
    else
      match verifyFileIntegrity H fs env filePath fileHash with
      | some _ => .ret (.json 500 (str "error") (str "File integrity check failed"))
      | none => .ret (.sendFile filePath)

/-- What the file system calls of the delete handler answer for reasons outside the
table. -/
structure DeleteFaults where
  stat : Option Errno
  remove : Option Errno
  deriving DecidableEq, Repr

/-- Source: the handler of `DELETE /delete/:fileHash`. Returns the response (or a panic) and
the file system after the request. -/
def delete (fs : FS) (env : DeleteFaults) (fileHash : GoString) : Go Response × FS :=
  match getFilePath fileHash with
  | .panic => (.panic, fs)
  | .ret filePath =>
    if !fileExists fs env.stat filePath then
      (.ret (.json 404 (str "error") (str "File not found")), fs)
    else
      match deleteFile fs env.remove filePath with
      | (fs1, some err) => (.ret (.json 500 (str "error") err.Error), fs1)
      | (fs1, none) => (.ret (.json 200 (str "message") (str "File deleted")), fs1)

/-! ## Auxiliary definitions for the statements -/

/-- The lowercase hexadecimal SHA-256 digest of a byte sequence: the primary digest. -/
def sha256Hex (H : Hashers) (b : GoString) : GoString := hexEncodeToString (H.sha256 b)

/-- A string without the path separator. -/
def NoSlash (s : GoString) : Prop := (47 : UInt8) ∉ s

instance (s : GoString) : Decidable (NoSlash s) := by unfold NoSlash; infer_instance

/-- A string of hexadecimal digits has neither a separator nor a dot. -/
def Plain (s : GoString) : Prop := (47 : UInt8) ∉ s ∧ (46 : UInt8) ∉ s

instance (s : GoString) : Decidable (Plain s) := by unfold Plain; infer_instance

/-- The shard directory of a digest: `store/<first two bytes>`. -/
def shardDir (d : GoString) : GoString := str "store/" ++ d.take 2

/-- The place of the object of a digest: `store/<first two bytes>/<digest>`. -/
def objectPath (d : GoString) : GoString := str "store/" ++ (d.take 2 ++ 47 :: d)

/-- The offset of the upload stream when the copy starts: the reading pass has left it at
the end, and `Seek` moves it to the start unless it fails. -/
def copyOffset (fh : Upload) : Nat :=
  match fh.seekErr with
  | none => 0
  | some _ => fh.content.length

/-- The steps of `saveFile` from `os.MkdirAll` on, for the digest `h` in hexadecimal, with
the paths `filepath.Join` gives for it. -/
def persist (fs : FS) (env : SaveFaults) (fh : Upload) (preCallback postCallback : Bool)
    (h : GoString) : Saved :=
  match MkdirAll fs env.mkdirAll (shardDir h) with
  | (fs1, some err) => ⟨.ret (.error err), fs1, []⟩
  | (fs1, none) =>
    match Create fs1 env.create (objectPath h) with
    | .error err => ⟨.ret (.error err), fs1, if preCallback then [Hook.pre] else []⟩
    | .ok fs2 =>
      match copyToFile fs2 env.copy (objectPath h) (fh.content.drop (copyOffset fh)) with
      | (fs3, some err) => ⟨.ret (.error err), fs3, if preCallback then [Hook.pre] else []⟩
      | (fs3, none) =>
        ⟨.ret (.ok h), fs3,
          (if preCallback then [Hook.pre] else []) ++ (if postCallback then [Hook.post] else [])⟩

/-- The state a call of `saveFile` that returns a digest leaves. -/
structure Stored (H : Hashers) (fs : FS) (fh : Upload) (d : GoString) (fs3 : FS) : Prop where
  digest : d = sha256Hex H fh.content
  resolve : getFilePath d = Go.ret (objectPath d)
  store : fsGet fs3 (str "store") = some Node.dir
  shard : fsGet fs3 (shardDir d) = some Node.dir
  object : fsGet fs3 (objectPath d) = some (Node.file (fh.content.drop (copyOffset fh)))
  kept : ∀ p, p ≠ str "store" → p ≠ shardDir d → p ≠ objectPath d → fsGet fs3 p = fsGet fs p
  table : ∃ fs1, mkdirChain fs [str "store", shardDir d] = (fs1, none) ∧
    fs3 = fsSet fs1 (objectPath d) (Node.file (fh.content.drop (copyOffset fh)))

/-- The upload stream of the bytes `b` with no failing step. -/
def uploadOf (b : GoString) : Upload := ⟨b, none, none, none⟩

/-- No failure of a file system call of `saveFile` from outside the table. -/
def noSaveFaults : SaveFaults := ⟨none, none, none⟩

/-- No failure of a file system call of a read from outside the table. -/
def noReadFaults : ReadFaults := ⟨none, none, none⟩

/-- No failure of a file system call of a delete from outside the table. -/
def noDeleteFaults : DeleteFaults := ⟨none, none⟩

/-- The claims of an upload of `hello` with a wrong md5 claim and a right sha256 claim. -/
def wrongMd5Form (k : GoString) : GoString :=
  if k = str "md5" then str "00"
  else if k = str "sha256" then sha256Hex goHashers (str "hello")
  else []

/-- The claims of an upload of `hello` with a right sha256 claim alone. -/
def sha256OnlyForm (k : GoString) : GoString :=
  if k = str "sha256" then sha256Hex goHashers (str "hello") else []

/-- The file system calls of `saveFile` with a copy that stops, the disk full, once two
bytes are written. -/
def diskFullAfterTwo (name : GoString) : SaveFaults :=
  ⟨none, none, some (2, .path (str "write") name .ENOSPC)⟩

/-! ## Evaluations of the model -/

theorem eval_md5_hello :
    hexEncodeToString (md5.Sum (str "hello")) = str "5d41402abc4b2a76b9719d911017c592" := by
  decide!

theorem eval_sha1_hello :
    hexEncodeToString (sha1.Sum (str "hello"))
      = str "aaf4c61ddcc5e8a2dabede0f3b482cd9aea9434d" := by
  decide!

theorem eval_sha256_hello :
    sha256Hex goHashers (str "hello")
      = str "2cf24dba5fb0a30e26e83b2ac5b9e29e1b161e5c1fa7425e73043362938b9824" := by
  decide!

theorem eval_sha256_empty :
    sha256Hex goHashers []
      = str "e3b0c44298fc1c149afbf4c8996fb92427ae41e4649b934ca495991b7852b855" := by
  decide!

theorem eval_sha256_two_blocks :
    sha256Hex goHashers (List.replicate 56 97)
      = str "b35439a4ac6f0948b6d6f9e3c6af0f5f590ce20f1bde7090ef7970686ec6738a" := by
  decide!

theorem eval_getFilePath_digest : getFilePath (str "abcdef") = Go.ret (str "store/ab/abcdef") := by decide

theorem eval_getFilePath_trailing_slash : getFilePath (str "ab/") = Go.ret (str "store/ab/ab") := by decide

theorem eval_getFilePath_two_bytes : getFilePath (str "ab") = Go.ret (str "store/ab/ab") := by decide

theorem eval_getFilePath_dotdot : getFilePath (str "..") = Go.ret (str "..") := by decide

theorem eval_getFilePath_dotdot_name : getFilePath (str "..x") = Go.ret (str "..x") := by decide

theorem eval_getFilePath_dot_slash : getFilePath (str "./") = Go.ret (str "store") := by decide

theorem eval_getFilePath_one_byte : getFilePath (str "a") = Go.panic := by decide

theorem eval_Clean_rooted : filepath.Clean (str "/../a//b/./c/..") = str "/a/b" := by decide

theorem eval_Clean_dotdot : filepath.Clean (str "a/../../b/../..") = str "../.." := by decide

theorem eval_hexEncodeToString_bytes : hexEncodeToString [0, 255, 171] = str "00ffab" := by decide


/-! ## Digests and object paths -/

theorem str_dot : str "." = [46] := by decide
theorem str_dotdot : str ".." = [46, 46] := by decide
theorem str_store : str "store" = [115, 116, 111, 114, 101] := by decide
theorem str_storeSlash : str "store/" = [115, 116, 111, 114, 101, 47] := by decide
theorem storeDir_eq : storeDir = [46, 47, 115, 116, 111, 114, 101] := by decide

theorem noSlash_cons {c : UInt8} {t : GoString} :
    NoSlash (c :: t) ↔ c ≠ 47 ∧ NoSlash t := by
  unfold NoSlash
  simp only [List.mem_cons, not_or, ne_eq]
  constructor
  · rintro ⟨h1, h2⟩; exact ⟨fun h => h1 h.symm, h2⟩
  · rintro ⟨h1, h2⟩; exact ⟨fun h => h1 h.symm, h2⟩

theorem noSlash_take {d : GoString} (h : NoSlash d) (n : Nat) : NoSlash (d.take n) :=
  fun hm => h (List.mem_of_mem_take hm)

theorem Plain.noSlash {d : GoString} (h : Plain d) : NoSlash d := h.1

theorem splitSlash_noSlash {a : GoString} (h : NoSlash a) : strings.splitSlash a = [a] := by
  induction a with
  | nil => rfl
  | cons c t ih =>
    obtain ⟨hc, ht⟩ := noSlash_cons.mp h
    simp [strings.splitSlash, hc, ih ht]

theorem splitSlash_append {a : GoString} (b : GoString) (h : NoSlash a) :
    strings.splitSlash (a ++ 47 :: b) = a :: strings.splitSlash b := by
  induction a with
  | nil => simp [strings.splitSlash]
  | cons c t ih =>
    obtain ⟨hc, ht⟩ := noSlash_cons.mp h
    simp [strings.splitSlash, hc, ih ht]

theorem getFilePath_noSlash {d : GoString} (hs : NoSlash d) (hl : 2 ≤ d.length) :
    getFilePath d = Go.ret (if d.take 2 = str ".." then d else objectPath d) := by
  have ha : NoSlash (d.take 2) := noSlash_take hs 2
  have hal : (d.take 2).length = 2 := by simp [List.length_take]; omega
  have hd0 : d ≠ [] := by intro h; simp [h] at hl
  have hd1 : d ≠ [46] := by intro h; simp [h] at hl
  have ha0 : d.take 2 ≠ [] := by intro h; simp [h] at hal
  have ha1 : d.take 2 ≠ [46] := by intro h; simp [h] at hal
  have hsplit : strings.splitSlash (46 :: 47 :: 115 :: 116 :: 111 :: 114 :: 101 :: 47 ::
      (d.take 2 ++ 47 :: d)) = [[46], [115, 116, 111, 114, 101], d.take 2, d] := by
    have h1 := splitSlash_append (d.take 2 ++ 47 :: d) (a := [115, 116, 111, 114, 101]) (by decide)
    have h2 := splitSlash_append d ha
    have h3 := splitSlash_noSlash hs
    have h0 := splitSlash_append ([115, 116, 111, 114, 101] ++ 47 :: (d.take 2 ++ 47 :: d))
      (a := [46]) (by decide)
    simp only [List.cons_append, List.nil_append] at h0 h1
    rw [h0, h1, h2, h3]
  unfold getFilePath sliceTo
  rw [if_pos hl]
  simp only [filepath.Join, storeDir_eq, strings.joinSlash, filepath.Clean, List.cons_append,
    List.nil_append, hsplit, str_dot, str_dotdot, objectPath, str_storeSlash]
  by_cases hdd : d.take 2 = [46, 46]
  · by_cases hd2 : d = [46, 46]
    · simp [filepath.cleanElem, str_dot, str_dotdot, hd2, strings.joinSlash]
    · simp [filepath.cleanElem, str_dot, str_dotdot, hdd, hd0, hd1, hd2, strings.joinSlash]
  · have hd2 : d ≠ [46, 46] := by intro h; apply hdd; rw [h]; rfl
    simp [filepath.cleanElem, str_dot, str_dotdot, hdd, hd0, hd1, hd2, ha0, ha1,
      strings.joinSlash]

theorem hexDigit_plain (n : Nat) : hexDigit n ≠ 47 ∧ hexDigit n ≠ 46 := by
  by_cases h : n < 16
  · interval_cases n <;> decide
  · have hlen : hextable.length ≤ n := by
      have : hextable.length = 16 := by decide
      omega
    have h0 : hexDigit n = 0 := by
      unfold hexDigit
      exact List.getD_eq_default _ _ hlen
    rw [h0]; decide

theorem hexEncodeToString_length (b : GoString) :
    (hexEncodeToString b).length = 2 * b.length := by
  induction b with
  | nil => rfl
  | cons v t ih =>
    simp only [hexEncodeToString, List.flatMap_cons, List.length_append, List.length_cons,
      List.length_nil] at ih ⊢
    omega

theorem hexEncodeToString_plain (b : GoString) : Plain (hexEncodeToString b) := by
  induction b with
  | nil => exact ⟨by simp [hexEncodeToString], by simp [hexEncodeToString]⟩
  | cons v t ih =>
    have h1 := hexDigit_plain (v >>> 4).toNat
    have h2 := hexDigit_plain (v &&& 0x0f).toNat
    unfold Plain at ih ⊢
    unfold hexEncodeToString at ih ⊢
    simp only [List.flatMap_cons, List.mem_append, List.mem_cons, List.not_mem_nil, or_false,
      not_or]
    exact ⟨⟨⟨fun h => h1.1 h.symm, fun h => h2.1 h.symm⟩, ih.1⟩,
      ⟨⟨fun h => h1.2 h.symm, fun h => h2.2 h.symm⟩, ih.2⟩⟩

theorem sha256Hex_length (H : Hashers) (b : GoString) : (sha256Hex H b).length = 64 := by
  unfold sha256Hex
  rw [hexEncodeToString_length, H.sha256_size]

theorem sha256Hex_plain (H : Hashers) (b : GoString) : Plain (sha256Hex H b) :=
  hexEncodeToString_plain _

theorem plain_take_ne_dotdot {d : GoString} (h : Plain d) : d.take 2 ≠ str ".." := by
  intro he
  have hm : (46 : UInt8) ∈ d.take 2 := by rw [he]; decide
  exact h.2 (List.mem_of_mem_take hm)

/-- The path resolver on a digest in hexadecimal. -/
theorem getFilePath_plain {d : GoString} (h : Plain d) (hl : 2 ≤ d.length) :
    getFilePath d = Go.ret (objectPath d) := by
  rw [getFilePath_noSlash h.noSlash hl, if_neg (plain_take_ne_dotdot h)]

/-- The shard directory `saveFile` makes for a digest in hexadecimal. -/
theorem join_shard {d : GoString} (h : Plain d) (hl : 2 ≤ d.length) :
    filepath.Join [storeDir, d.take 2] = shardDir d := by
  have ha : NoSlash (d.take 2) := noSlash_take h.noSlash 2
  have hal : (d.take 2).length = 2 := by simp [List.length_take]; omega
  have ha0 : d.take 2 ≠ [] := by intro h; simp [h] at hal
  have ha1 : d.take 2 ≠ [46] := by intro h; simp [h] at hal
  have ha2 : d.take 2 ≠ [46, 46] := by
    have := plain_take_ne_dotdot h
    rwa [str_dotdot] at this
  have hsplit : strings.splitSlash (46 :: 47 :: 115 :: 116 :: 111 :: 114 :: 101 :: 47 ::
      d.take 2) = [[46], [115, 116, 111, 114, 101], d.take 2] := by
    have h1 := splitSlash_append (d.take 2) (a := [115, 116, 111, 114, 101]) (by decide)
    have h3 := splitSlash_noSlash ha
    have h0 := splitSlash_append ([115, 116, 111, 114, 101] ++ 47 :: d.take 2)
      (a := [46]) (by decide)
    simp only [List.cons_append, List.nil_append] at h0 h1
    rw [h0, h1, h3]
  simp only [filepath.Join, storeDir_eq, strings.joinSlash, filepath.Clean, List.cons_append,
    List.nil_append, hsplit, str_dot, str_dotdot, shardDir, str_storeSlash]
  simp [filepath.cleanElem, str_dot, str_dotdot, ha0, ha1, ha2, strings.joinSlash]

/-- The destination `saveFile` writes for a digest in hexadecimal. -/
theorem join_object {d : GoString} (h : Plain d) (hl : 2 ≤ d.length) :
    filepath.Join [shardDir d, d] = objectPath d := by
  have ha : NoSlash (d.take 2) := noSlash_take h.noSlash 2
  have hal : (d.take 2).length = 2 := by simp [List.length_take]; omega
  have hd0 : d ≠ [] := by intro h; simp [h] at hl
  have hd1 : d ≠ [46] := by intro h; simp [h] at hl
  have ha0 : d.take 2 ≠ [] := by intro h; simp [h] at hal
  have ha1 : d.take 2 ≠ [46] := by intro h; simp [h] at hal
  have ha2 : d.take 2 ≠ [46, 46] := by
    have := plain_take_ne_dotdot h
    rwa [str_dotdot] at this
  have hd2 : d ≠ [46, 46] := by intro h; apply ha2; rw [h]; rfl
  have hsplit : strings.splitSlash (115 :: 116 :: 111 :: 114 :: 101 :: 47 ::
      (d.take 2 ++ 47 :: d)) = [[115, 116, 111, 114, 101], d.take 2, d] := by
    have h1 := splitSlash_append (d.take 2 ++ 47 :: d) (a := [115, 116, 111, 114, 101]) (by decide)
    have h2 := splitSlash_append d ha
    have h3 := splitSlash_noSlash h.noSlash
    simp only [List.cons_append, List.nil_append] at h1
    rw [h1, h2, h3]
  simp only [filepath.Join, shardDir, objectPath, str_storeSlash, strings.joinSlash,
    filepath.Clean, List.cons_append, List.nil_append, List.append_assoc, hsplit, str_dot,
    str_dotdot]
  simp [filepath.cleanElem, str_dot, str_dotdot, hd0, hd1, hd2, ha0, ha1, ha2,
    strings.joinSlash]

/-! ## The file system table -/

theorem ancestorsFrom_noSlash {x : GoString} (h : NoSlash x) (pre : GoString) :
    ancestorsFrom pre x = [] := by
  induction x generalizing pre with
  | nil => rfl
  | cons c t ih =>
    obtain ⟨hc, ht⟩ := noSlash_cons.mp h
    simp [ancestorsFrom, hc, ih ht]

theorem ancestorsFrom_append {x : GoString} (h : NoSlash x) (pre y : GoString)
    (hne : pre ++ x ≠ []) :
    ancestorsFrom pre (x ++ 47 :: y) = (pre ++ x) :: ancestorsFrom (pre ++ x ++ [47]) y := by
  induction x generalizing pre with
  | nil =>
    have hp : pre ≠ [] := by simpa using hne
    simp [ancestorsFrom, hp]
  | cons c t ih =>
    obtain ⟨hc, ht⟩ := noSlash_cons.mp h
    have := ih ht (pre ++ [c]) (by simp)
    simp only [List.append_assoc, List.singleton_append] at this
    simp [ancestorsFrom, hc, this]

theorem ancestors_shardDir {d : GoString} (h : NoSlash d) :
    ancestors (shardDir d) = [str "store"] := by
  have h1 := ancestorsFrom_append (x := [115, 116, 111, 114, 101]) (by decide) [] (d.take 2)
    (by simp)
  have h2 := ancestorsFrom_noSlash (noSlash_take h 2) ([] ++ [115, 116, 111, 114, 101] ++ [47])
  unfold ancestors shardDir
  rw [str_storeSlash, str_store]
  simp only [List.cons_append, List.nil_append] at h1 h2 ⊢
  rw [h1, h2]

theorem ancestors_objectPath {d : GoString} (h : NoSlash d) :
    ancestors (objectPath d) = [str "store", shardDir d] := by
  have h1 := ancestorsFrom_append (x := [115, 116, 111, 114, 101]) (by decide) []
    (d.take 2 ++ 47 :: d) (by simp)
  have h2 := ancestorsFrom_append (noSlash_take h 2) ([] ++ [115, 116, 111, 114, 101] ++ [47]) d
    (by simp)
  have h3 := ancestorsFrom_noSlash h
    ([] ++ [115, 116, 111, 114, 101] ++ [47] ++ d.take 2 ++ [47])
  unfold ancestors objectPath shardDir
  rw [str_storeSlash, str_store]
  simp only [List.cons_append, List.nil_append] at h1 h2 h3 ⊢
  rw [h1, h2, h3]

theorem objectPath_ne_store (d : GoString) : objectPath d ≠ str "store" := by
  intro h
  have := congrArg List.length h
  rw [objectPath, str_storeSlash, str_store] at this
  simp at this

theorem objectPath_ne_shardDir (d : GoString) : objectPath d ≠ shardDir d := by
  intro h
  have := congrArg List.length h
  rw [objectPath, shardDir] at this
  simp at this

theorem fsGet_fsSet_same (fs : FS) (p : GoString) (n : Node) : fsGet (fsSet fs p n) p = some n := by
  induction fs with
  | nil => simp [fsSet, fsGet]
  | cons e t ih =>
    obtain ⟨q, m⟩ := e
    by_cases h : q = p
    · simp [fsSet, fsGet, h]
    · simp [fsSet, fsGet, h, ih]

theorem fsGet_fsSet_ne (fs : FS) {p q : GoString} (n : Node) (h : q ≠ p) :
    fsGet (fsSet fs p n) q = fsGet fs q := by
  induction fs with
  | nil => simp [fsSet, fsGet, Ne.symm h]
  | cons e t ih =>
    obtain ⟨r, m⟩ := e
    by_cases hr : r = p
    · subst hr
      simp [fsSet, fsGet, Ne.symm h]
    · by_cases hq : r = q
      · subst hq
        simp [fsSet, fsGet, hr]
      · simp [fsSet, fsGet, hr, hq, ih]

theorem fsSet_of_fsGet {fs : FS} {p : GoString} {n : Node} (h : fsGet fs p = some n) :
    fsSet fs p n = fs := by
  induction fs with
  | nil => simp [fsGet] at h
  | cons e t ih =>
    obtain ⟨q, m⟩ := e
    by_cases hq : q = p
    · subst hq
      simp [fsGet] at h
      simp [fsSet, h]
    · simp [fsGet, hq] at h
      simp [fsSet, hq, ih h]

theorem fsSet_fsSet (fs : FS) (p : GoString) (a b : Node) :
    fsSet (fsSet fs p a) p b = fsSet fs p b := by
  induction fs with
  | nil => simp [fsSet]
  | cons e t ih =>
    obtain ⟨q, m⟩ := e
    by_cases hq : q = p
    · simp [fsSet, hq]
    · simp [fsSet, hq, ih]

theorem fsGet_fsErase_same (fs : FS) (p : GoString) : fsGet (fsErase fs p) p = none := by
  induction fs with
  | nil => rfl
  | cons e t ih =>
    obtain ⟨q, m⟩ := e
    by_cases hq : q = p
    · simp [fsErase, hq, ih]
    · simp [fsErase, hq, fsGet, ih]

theorem fsGet_fsErase_ne (fs : FS) {p q : GoString} (h : q ≠ p) :
    fsGet (fsErase fs p) q = fsGet fs q := by
  induction fs with
  | nil => rfl
  | cons e t ih =>
    obtain ⟨r, m⟩ := e
    by_cases hr : r = p
    · subst hr
      simp [fsErase, fsGet, ih, Ne.symm h]
    · by_cases hq : r = q
      · subst hq
        simp [fsErase, hr, fsGet]
      · simp [fsErase, hr, fsGet, hq, ih]

theorem walk_eq_none {fs : FS} {l : List GoString} :
    walk fs l = none ↔ ∀ a ∈ l, fsGet fs a = some Node.dir := by
  induction l with
  | nil => simp [walk]
  | cons a rest ih =>
    simp only [walk, List.mem_cons, forall_eq_or_imp]
    cases hget : fsGet fs a with
    | none => simp
    | some n =>
      cases n with
      | file c => simp
      | dir => simpa using ih

/-- What a chain of `Mkdir` calls that succeeds leaves: every directory of the chain
exists, every node that existed is kept, and nothing outside the chain changes. -/
theorem mkdirChain_ok {fs fs1 : FS} {l : List GoString} (h : mkdirChain fs l = (fs1, none)) :
    (∀ a ∈ l, fsGet fs1 a = some Node.dir) ∧
    (∀ p n, fsGet fs p = some n → fsGet fs1 p = some n) ∧
    (∀ p, p ∉ l → fsGet fs1 p = fsGet fs p) := by
  induction l generalizing fs with
  | nil =>
    simp only [mkdirChain, Prod.mk.injEq, and_true] at h
    subst h
    simp
  | cons a rest ih =>
    simp only [mkdirChain] at h
    cases hget : fsGet fs a with
    | none =>
      rw [hget] at h
      obtain ⟨h1, h2, h3⟩ := ih h
      refine ⟨?_, ?_, ?_⟩
      · intro b hb
        rcases List.mem_cons.mp hb with hb | hb
        · subst hb
          exact h2 _ _ (fsGet_fsSet_same fs b Node.dir)
        · exact h1 b hb
      · intro p n hp
        apply h2
        have hne : p ≠ a := by
          intro he; rw [he, hget] at hp; exact Option.noConfusion hp
        rw [fsGet_fsSet_ne fs Node.dir hne]; exact hp
      · intro p hp
        have hne : p ≠ a := fun he => hp (he ▸ List.mem_cons_self _ _)
        rw [h3 p (fun hm => hp (List.mem_cons_of_mem _ hm)), fsGet_fsSet_ne fs Node.dir hne]
    | some n =>
      rw [hget] at h
      cases n with
      | file c => simp at h
      | dir =>
        obtain ⟨h1, h2, h3⟩ := ih h
        refine ⟨?_, h2, ?_⟩
        · intro b hb
          rcases List.mem_cons.mp hb with hb | hb
          · subst hb
            exact h2 _ _ hget
          · exact h1 b hb
        · intro p hp
          exact h3 p (fun hm => hp (List.mem_cons_of_mem _ hm))

/-- A chain of `Mkdir` calls over directories that all exist changes nothing. -/
theorem mkdirChain_of_dirs {fs : FS} {l : List GoString}
    (h : ∀ a ∈ l, fsGet fs a = some Node.dir) : mkdirChain fs l = (fs, none) := by
  induction l with
  | nil => rfl
  | cons a rest ih =>
    have ha := h a (List.mem_cons_self _ _)
    simp only [mkdirChain, ha]
    exact ih (fun b hb => h b (List.mem_cons_of_mem _ hb))

/-! ## `saveFile` after the claims are verified -/

theorem mapIndex_sha256 (H : Hashers) (b : GoString) :
    mapIndex (calculatedHashes H b) (str "sha256") = sha256Hex H b := by
  have h1 : str "md5" ≠ str "sha256" := by decide
  have h2 : str "sha1" ≠ str "sha256" := by decide
  simp [mapIndex, calculatedHashes, List.find?, h1, h2, sha256Hex]

/-- Once the stream is read and no claim mismatches, `saveFile` is `persist` on the SHA-256
digest of the content. -/
theorem saveFile_verified (H : Hashers) (fs : FS) (env : SaveFaults) (fh : Upload)
    (pre post : Bool) (claims : List (GoString × GoString))
    (ho : fh.openErr = none) (hr : fh.readErr = none)
    (hv : firstMismatch (calculatedHashes H fh.content) claims = none) :
    saveFile H fs env fh pre post claims = persist fs env fh pre post (sha256Hex H fh.content) := by
  have hp := sha256Hex_plain H fh.content
  have hl : 2 ≤ (sha256Hex H fh.content).length := by rw [sha256Hex_length]; omega
  unfold saveFile persist
  simp only [ho, hr, hv, mapIndex_sha256, sliceTo, if_pos hl, join_shard hp hl,
    join_object hp hl, copyOffset]

/-- A call of `saveFile` that returns a digest has read the stream and found no mismatch. -/
theorem saveFile_ok_verified {H : Hashers} {fs : FS} {env : SaveFaults} {fh : Upload}
    {pre post : Bool} {claims : List (GoString × GoString)} {d : GoString}
    (hput : (saveFile H fs env fh pre post claims).result = .ret (.ok d)) :
    fh.openErr = none ∧ fh.readErr = none ∧
    firstMismatch (calculatedHashes H fh.content) claims = none := by
  unfold saveFile at hput
  cases ho : fh.openErr with
  | some e => simp [ho] at hput
  | none =>
    cases hr : fh.readErr with
    | some e => simp [ho, hr] at hput
    | none =>
      cases hv : firstMismatch (calculatedHashes H fh.content) claims with
      | some kv => simp [ho, hr, hv] at hput
      | none => exact ⟨rfl, rfl, rfl⟩

/-- What `persist` has done when it returns a digest. -/
theorem persist_ok {fs : FS} {env : SaveFaults} {fh : Upload} {pre post : Bool}
    {h d : GoString} : (persist fs env fh pre post h).result = .ret (.ok d) →
    d = h ∧ ∃ fs1, mkdirChain fs (ancestors (shardDir h) ++ [shardDir h]) = (fs1, none) ∧
      walk fs1 (ancestors (objectPath h)) = none ∧
      (persist fs env fh pre post h).fs =
        fsSet fs1 (objectPath h) (.file (fh.content.drop (copyOffset fh))) := by
  unfold persist MkdirAll
  cases env.mkdirAll with
  | some e => simp
  | none =>
    simp only
    rcases mkdirChain fs (ancestors (shardDir h) ++ [shardDir h]) with ⟨fs1, e1⟩
    cases e1 with
    | some e => simp
    | none =>
      simp only
      unfold Create
      cases env.create with
      | some e => simp
      | none =>
        simp only
        cases hw : walk fs1 (ancestors (objectPath h)) with
        | some e => simp
        | none =>
          simp only
          unfold copyToFile
          cases fsGet fs1 (objectPath h) with
          | none =>
            cases env.copy with
            | some ne => simp
            | none =>
              simp only [Go.ret.injEq, Except.ok.injEq, fsSet_fsSet]
              intro hd
              exact ⟨hd.symm, fs1, rfl, hw, rfl⟩
          | some n =>
            cases n with
            | dir => simp
            | file c =>
              cases env.copy with
              | some ne => simp
              | none =>
                simp only [Go.ret.injEq, Except.ok.injEq, fsSet_fsSet]
                intro hd
                exact ⟨hd.symm, fs1, rfl, hw, rfl⟩

theorem saveFile_stored {H : Hashers} {fs : FS} {env : SaveFaults} {fh : Upload}
    {pre post : Bool} {claims : List (GoString × GoString)} {d : GoString}
    (hput : (saveFile H fs env fh pre post claims).result = .ret (.ok d)) :
    Stored H fs fh d (saveFile H fs env fh pre post claims).fs := by
  obtain ⟨ho, hr, hv⟩ := saveFile_ok_verified hput
  rw [saveFile_verified H fs env fh pre post claims ho hr hv] at hput ⊢
  obtain ⟨hd, fs1, hchain, -, hfs⟩ := persist_ok hput
  subst hd
  have hp := sha256Hex_plain H fh.content
  have hl : 2 ≤ (sha256Hex H fh.content).length := by rw [sha256Hex_length]; omega
  obtain ⟨h1, -, h3⟩ := mkdirChain_ok hchain
  rw [ancestors_shardDir hp.noSlash] at h1 h3 hchain
  rw [hfs]
  refine ⟨rfl, getFilePath_plain hp hl, ?_, ?_, fsGet_fsSet_same _ _ _, ?_, ⟨fs1, hchain, rfl⟩⟩
  · rw [fsGet_fsSet_ne _ _ (objectPath_ne_store _).symm]
    exact h1 _ (by simp)
  · rw [fsGet_fsSet_ne _ _ (objectPath_ne_shardDir _).symm]
    exact h1 _ (by simp)
  · intro p hp1 hp2 hp3
    rw [fsGet_fsSet_ne _ _ hp3]
    exact h3 p (by simp [hp1, hp2])

theorem firstMismatch_some {cal claims : List (GoString × GoString)} {k : GoString}
    (h : firstMismatch cal claims = some k) : ∃ v, (k, v) ∈ claims ∧ mapIndex cal k ≠ v := by
  induction claims with
  | nil => simp [firstMismatch] at h
  | cons kv rest ih =>
    obtain ⟨k1, v1⟩ := kv
    by_cases hm : mapIndex cal k1 = v1
    · simp only [firstMismatch, hm, ne_eq, not_true_eq_false, if_false] at h
      obtain ⟨v, hv, hne⟩ := ih h
      exact ⟨v, List.mem_cons_of_mem _ hv, hne⟩
    · simp only [firstMismatch, ne_eq, hm, not_false_eq_true, if_true, Option.some.injEq] at h
      subst h
      exact ⟨v1, List.mem_cons_self _ _, hm⟩

theorem firstMismatch_none {cal claims : List (GoString × GoString)} :
    firstMismatch cal claims = none ↔ ∀ kv ∈ claims, mapIndex cal kv.1 = kv.2 := by
  induction claims with
  | nil => simp [firstMismatch]
  | cons kv rest ih =>
    obtain ⟨k1, v1⟩ := kv
    by_cases hm : mapIndex cal k1 = v1
    · simp [firstMismatch, hm, ih]
    · simp [firstMismatch, hm]

theorem mem_uploadClaims {keys : List GoString} {form : GoString → GoString}
    {k v : GoString} : (k, v) ∈ uploadClaims keys form ↔ k ∈ keys ∧ v = form k ∧ v ≠ [] := by
  unfold uploadClaims
  simp only [List.mem_filter, List.mem_map, Prod.mk.injEq, ne_eq, decide_not, Bool.not_eq_true',
    decide_eq_false_iff_not]
  constructor
  · rintro ⟨⟨a, ha, rfl, rfl⟩, hne⟩
    exact ⟨ha, rfl, hne⟩
  · rintro ⟨hk, rfl, hne⟩
    exact ⟨⟨k, hk, rfl, rfl⟩, hne⟩

/-- The three steps of `persist` succeeding give the digest. -/
theorem persist_run {fs fs1 fs2 : FS} {env : SaveFaults} (fh : Upload) (pre post : Bool)
    {h : GoString} (hm : MkdirAll fs env.mkdirAll (shardDir h) = (fs1, none))
    (hc : Create fs1 env.create (objectPath h) = .ok fs2) (hcp : env.copy = none) :
    (persist fs env fh pre post h).result = .ret (.ok h) ∧
    (persist fs env fh pre post h).fs =
      fsSet fs2 (objectPath h) (.file (fh.content.drop (copyOffset fh))) := by
  unfold persist
  simp [hm, hc, hcp, copyToFile]

theorem Stored.plain {H : Hashers} {fs fs3 : FS} {fh : Upload} {d : GoString}
    (h : Stored H fs fh d fs3) : Plain d := by
  rw [h.digest]; exact sha256Hex_plain H _

theorem Stored.walk {H : Hashers} {fs fs3 : FS} {fh : Upload} {d : GoString}
    (h : Stored H fs fh d fs3) : walk fs3 (ancestors (objectPath d)) = none := by
  rw [ancestors_objectPath h.plain.noSlash, walk_eq_none]
  intro a ha
  simp only [List.mem_cons, List.mem_singleton, List.not_mem_nil, or_false] at ha
  rcases ha with rfl | rfl
  · exact h.store
  · exact h.shard

/-! ## The properties of the specification -/

/-- C9, as the code has it: two different digest values of at least two bytes that
contain no path separator resolve, without a panic, to two different paths. -/
theorem C9_resolve_injective (d1 d2 : GoString) (hs1 : NoSlash d1) (hs2 : NoSlash d2)
    (hl1 : 2 ≤ d1.length) (hl2 : 2 ≤ d2.length) (hne : d1 ≠ d2) :
    ∃ p1 p2, getFilePath d1 = Go.ret p1 ∧ getFilePath d2 = Go.ret p2 ∧ p1 ≠ p2 := by
  refine ⟨_, _, getFilePath_noSlash hs1 hl1, getFilePath_noSlash hs2 hl2, ?_⟩
  have htake : ∀ d : GoString, (objectPath d).take 2 = [115, 116] := by
    intro d; rw [objectPath, str_storeSlash]; rfl
  have hobj : ∀ a b : GoString, 2 ≤ a.length → 2 ≤ b.length → objectPath a = objectPath b →
      a = b := by
    intro a b ha hb h
    unfold objectPath at h
    have h1 := List.append_cancel_left h
    have hlen : (a.take 2).length = (b.take 2).length := by
      simp [List.length_take]; omega
    have h2 := (List.append_inj h1 hlen).2
    simpa using h2
  by_cases c1 : d1.take 2 = str ".."
  · by_cases c2 : d2.take 2 = str ".."
    · rw [if_pos c1, if_pos c2]; exact hne
    · rw [if_pos c1, if_neg c2]
      intro h
      rw [h, htake, str_dotdot] at c1
      exact absurd c1 (by decide!)
  · by_cases c2 : d2.take 2 = str ".."
    · rw [if_neg c1, if_pos c2]
      intro h
      rw [← h, htake, str_dotdot] at c2
      exact absurd c2 (by decide!)
    · rw [if_neg c1, if_neg c2]
      exact fun h => hne (hobj d1 d2 hl1 hl2 h)

/-- C9, instance: the digests `ab12` and `ab34` resolve to different paths. -/
theorem C9_resolve_injective_witness :
    ∃ p1 p2, getFilePath (str "ab12") = Go.ret p1 ∧ getFilePath (str "ab34") = Go.ret p2 ∧
      p1 ≠ p2 :=
  C9_resolve_injective (str "ab12") (str "ab34") (by decide!) (by decide!) (by decide!)
    (by decide!) (by decide!)

/-- C9, as stated, fails: `ab` and `ab/` are two different strings of at least two bytes,
and `filepath.Join`, which cleans its result, resolves both to `store/ab/ab`. -/
theorem C9_resolve_collision :
    str "ab" ≠ str "ab/" ∧ 2 ≤ (str "ab").length ∧ 2 ≤ (str "ab/").length ∧
    getFilePath (str "ab") = Go.ret (str "store/ab/ab") ∧
    getFilePath (str "ab/") = Go.ret (str "store/ab/ab") := by
  decide!

/-- C4, what the code does: on an identifier shorter than two bytes `getFilePath` panics at
`fileHash[:2]`, and so do both handlers, which call it first; nothing rejects the
identifier before. -/
theorem C4_short_identifier_panics (H : Hashers) (fs : FS) (renv : ReadFaults)
    (denv : DeleteFaults) (fileHash : GoString) (hshort : fileHash.length < 2) :
    getFilePath fileHash = Go.panic ∧ download H fs renv fileHash = Go.panic ∧
    delete fs denv fileHash = (Go.panic, fs) := by
  have hp : getFilePath fileHash = Go.panic := by
    unfold getFilePath sliceTo
    rw [if_neg (by omega)]
  refine ⟨hp, ?_, ?_⟩
  · unfold download; rw [hp]
  · unfold delete; rw [hp]

/-- C4, instance: `GET /download/a` and `DELETE /delete/a` panic. -/
theorem C4_short_identifier_panics_witness :
    getFilePath (str "a") = Go.panic ∧
    download goHashers [] noReadFaults (str "a") = Go.panic ∧
    delete [] noDeleteFaults (str "a") = (Go.panic, []) :=
  C4_short_identifier_panics goHashers [] noReadFaults noDeleteFaults (str "a") (by decide!)

/-- C1: when a non-empty claim for md5, sha1 or sha256 differs from the calculated digest,
`saveFile` returns an error and leaves the file system as it was; once the stream is opened
and read, the error is `<alg> hash mismatch` for an algorithm whose non-empty claim differs
from the calculated digest. `keys` is any order of the three keys of the claim map. -/
theorem C1_mismatch_rejected (H : Hashers) (fs : FS) (env : SaveFaults) (fh : Upload)
    (pre post : Bool) (keys : List GoString) (form : GoString → GoString)
    (hkeys : keys.Perm claimKeys)
    (hbad : ∃ alg ∈ claimKeys, form alg ≠ [] ∧
      form alg ≠ mapIndex (calculatedHashes H fh.content) alg) :
    (saveFile H fs env fh pre post (uploadClaims keys form)).fs = fs ∧
    (∃ err, (saveFile H fs env fh pre post (uploadClaims keys form)).result
      = .ret (.error err)) ∧
    (fh.openErr = none → fh.readErr = none →
      ∃ alg ∈ claimKeys, form alg ≠ [] ∧
        form alg ≠ mapIndex (calculatedHashes H fh.content) alg ∧
        (saveFile H fs env fh pre post (uploadClaims keys form)).result
          = .ret (.error (.new (alg ++ str " hash mismatch")))) := by
  obtain ⟨bad, hmem, hne, hdiff⟩ := hbad
  have hsome : ∃ k, firstMismatch (calculatedHashes H fh.content) (uploadClaims keys form)
      = some k := by
    cases hf : firstMismatch (calculatedHashes H fh.content) (uploadClaims keys form) with
    | some k => exact ⟨k, rfl⟩
    | none =>
      have hall := firstMismatch_none.mp hf (bad, form bad)
        (mem_uploadClaims.mpr ⟨hkeys.mem_iff.mpr hmem, rfl, hne⟩)
      exact absurd hall.symm hdiff
  obtain ⟨k, hk⟩ := hsome
  obtain ⟨v, hv, hkv⟩ := firstMismatch_some hk
  obtain ⟨hkmem, hvform, hvne⟩ := mem_uploadClaims.mp hv
  subst hvform
  unfold saveFile
  cases ho : fh.openErr with
  | some e => simp
  | none =>
    cases hr : fh.readErr with
    | some e => simp
    | none =>
      simp only [hk, true_and, Go.ret.injEq, Except.error.injEq, exists_eq', forall_const]
      exact ⟨k, hkeys.mem_iff.mp hkmem, hvne, fun h => hkv h.symm, rfl⟩

/-- C1, instance: `hello` with a right sha256 claim and a wrong md5 claim is refused with
`md5 hash mismatch`, and the empty store stays empty. -/
theorem C1_mismatch_rejected_witness :
    (saveFile goHashers [] noSaveFaults (uploadOf (str "hello")) true true
      (uploadClaims claimKeys wrongMd5Form)).fs = [] ∧
    (saveFile goHashers [] noSaveFaults (uploadOf (str "hello")) true true
      (uploadClaims claimKeys wrongMd5Form)).result
        = .ret (.error (.new (str "md5 hash mismatch"))) :=
  ⟨(C1_mismatch_rejected goHashers [] noSaveFaults (uploadOf (str "hello")) true true
      claimKeys wrongMd5Form (List.Perm.refl _)
      ⟨str "md5", by decide, by decide, by decide!⟩).1, by decide!⟩

/-- C5: when every claim for md5, sha1 and sha256 is empty or equal to the calculated
digest, no entry passed to `saveFile` has an empty value and the verification loop finds
no mismatch; a digest that `saveFile` returns is the SHA-256 of the content in lowercase
hexadecimal; and when opening, reading, `MkdirAll`, `Create` and the copy do not fail,
`saveFile` returns that digest and the handler answers 201 with it. -/
theorem C5_matching_claims_accepted (H : Hashers) (fs : FS) (env : SaveFaults) (fh : Upload)
    (pre post : Bool) (keys : List GoString) (form : GoString → GoString)
    (hkeys : keys.Perm claimKeys)
    (hok : ∀ alg ∈ claimKeys, form alg = [] ∨
      form alg = mapIndex (calculatedHashes H fh.content) alg) :
    (∀ kv ∈ uploadClaims keys form, kv.2 ≠ []) ∧
    firstMismatch (calculatedHashes H fh.content) (uploadClaims keys form) = none ∧
    (∀ d, (saveFile H fs env fh pre post (uploadClaims keys form)).result = .ret (.ok d) →
      d = sha256Hex H fh.content) ∧
    (∀ fs1 fs2, fh.openErr = none → fh.readErr = none →
      MkdirAll fs env.mkdirAll (shardDir (sha256Hex H fh.content)) = (fs1, none) →
      Create fs1 env.create (objectPath (sha256Hex H fh.content)) = .ok fs2 →
      env.copy = none →
      (saveFile H fs env fh pre post (uploadClaims keys form)).result
        = .ret (.ok (sha256Hex H fh.content)) ∧
      (upload H fs env (some fh) keys form).1
        = .ret (.json 201 (str "hash") (sha256Hex H fh.content))) := by
  have hv : firstMismatch (calculatedHashes H fh.content) (uploadClaims keys form) = none := by
    rw [firstMismatch_none]
    rintro ⟨k, v⟩ hkv
    obtain ⟨hk, hvf, hvne⟩ := mem_uploadClaims.mp hkv
    rcases hok k (hkeys.mem_iff.mp hk) with h | h
    · exact absurd (hvf.trans h) hvne
    · exact (hvf.trans h).symm
  refine ⟨?_, hv, ?_, ?_⟩
  · rintro ⟨k, v⟩ hkv
    exact (mem_uploadClaims.mp hkv).2.2
  · intro d hd
    exact (saveFile_stored hd).digest
  · intro fs1 fs2 ho hr hm hc hcp
    have hres : (saveFile H fs env fh pre post (uploadClaims keys form)).result
        = .ret (.ok (sha256Hex H fh.content)) := by
      rw [saveFile_verified H fs env fh pre post _ ho hr hv]
      exact (persist_run fh _ _ hm hc hcp).1
    have hres2 : (saveFile H fs env fh true true (uploadClaims keys form)).result
        = .ret (.ok (sha256Hex H fh.content)) := by
      rw [saveFile_verified H fs env fh true true _ ho hr hv]
      exact (persist_run fh _ _ hm hc hcp).1
    refine ⟨hres, ?_⟩
    unfold upload
    simp only [hres2]

/-- C5, instance: `hello` with a right sha256 claim alone, md5 and sha1 omitted, is
stored and its digest returned. -/
theorem C5_matching_claims_accepted_witness :
    (saveFile goHashers [] noSaveFaults (uploadOf (str "hello")) true true
      (uploadClaims claimKeys sha256OnlyForm)).result
        = .ret (.ok (sha256Hex goHashers (str "hello"))) ∧
    (upload goHashers [] noSaveFaults (some (uploadOf (str "hello"))) claimKeys
      sha256OnlyForm).1 = .ret (.json 201 (str "hash") (sha256Hex goHashers (str "hello"))) :=
  (C5_matching_claims_accepted goHashers [] noSaveFaults (uploadOf (str "hello")) true true claimKeys
    sha256OnlyForm (List.Perm.refl _) (by decide!)).2.2.2
    [(str "store", Node.dir), (shardDir (sha256Hex goHashers (str "hello")), Node.dir)]
    [(str "store", Node.dir), (shardDir (sha256Hex goHashers (str "hello")), Node.dir),
      (objectPath (sha256Hex goHashers (str "hello")), Node.file [])]
    rfl rfl (by decide!) (by decide!) rfl

theorem fileExists_of_file {fs : FS} {p : GoString} {n : Node}
    (hw : walk fs (ancestors p) = none) (hg : fsGet fs p = some n) :
    fileExists fs none p = true := by
  simp [fileExists, Stat, hw, hg]

theorem fileExists_of_absent {fs : FS} {p : GoString}
    (hw : walk fs (ancestors p) = none) (hg : fsGet fs p = none) :
    fileExists fs none p = false := by
  simp [fileExists, Stat, hw, hg, IsNotExist]

theorem verifyFileIntegrity_of_file (H : Hashers) {fs : FS} {p : GoString} {c : GoString}
    (env : ReadFaults) (d : GoString) (ho : env.openFile = none) (hr : env.read = none)
    (hw : walk fs (ancestors p) = none) (hg : fsGet fs p = some (Node.file c)) :
    verifyFileIntegrity H fs env p d =
      if sha256Hex H c ≠ d then some (.new (str "file integrity check failed")) else none := by
  simp [verifyFileIntegrity, Open, readAll, ho, hr, hw, hg, sha256Hex]

/-- C2: when `saveFile` with no claims returns the digest `d` and the rewind of the stream
has not failed, then, the file system calls of the read not failing for outside reasons,
the download of `d` resolves a path, finds the file, passes the integrity check and serves
that path, and the bytes stored there are the bytes uploaded. -/
theorem C2_round_trip (H : Hashers) (fs : FS) (env : SaveFaults) (fh : Upload)
    (pre post : Bool) (d : GoString)
    (hput : (saveFile H fs env fh pre post []).result = .ret (.ok d))
    (hseek : fh.seekErr = none) :
    ∃ filePath, getFilePath d = Go.ret filePath ∧
      fileExists (saveFile H fs env fh pre post []).fs none filePath = true ∧
      verifyFileIntegrity H (saveFile H fs env fh pre post []).fs noReadFaults filePath d
        = none ∧
      download H (saveFile H fs env fh pre post []).fs noReadFaults d
        = Go.ret (.sendFile filePath) ∧
      fsGet (saveFile H fs env fh pre post []).fs filePath = some (.file fh.content) := by
  have hst := saveFile_stored hput
  have hobj : fsGet (saveFile H fs env fh pre post []).fs (objectPath d)
      = some (.file fh.content) := by
    have := hst.object
    simpa [copyOffset, hseek] using this
  have hex : fileExists (saveFile H fs env fh pre post []).fs none (objectPath d) = true :=
    fileExists_of_file hst.walk hobj
  have hver : verifyFileIntegrity H (saveFile H fs env fh pre post []).fs noReadFaults
      (objectPath d) d = none := by
    rw [verifyFileIntegrity_of_file H noReadFaults d rfl rfl hst.walk hobj, hst.digest]
    simp
  refine ⟨objectPath d, hst.resolve, hex, hver, ?_, hobj⟩
  unfold download
  rw [hst.resolve]
  simp only [noReadFaults] at hver ⊢
  simp [hex, hver]

/-- C2, instance: `hello` put into the empty store and read back. -/
theorem C2_round_trip_witness :
    ∃ filePath, getFilePath (sha256Hex goHashers (str "hello")) = Go.ret filePath ∧
      fileExists (saveFile goHashers [] noSaveFaults (uploadOf (str "hello")) true true []).fs
        none filePath = true ∧
      verifyFileIntegrity goHashers
        (saveFile goHashers [] noSaveFaults (uploadOf (str "hello")) true true []).fs
        noReadFaults filePath (sha256Hex goHashers (str "hello")) = none ∧
      download goHashers
        (saveFile goHashers [] noSaveFaults (uploadOf (str "hello")) true true []).fs
        noReadFaults (sha256Hex goHashers (str "hello")) = Go.ret (.sendFile filePath) ∧
      fsGet (saveFile goHashers [] noSaveFaults (uploadOf (str "hello")) true true []).fs
        filePath = some (.file (str "hello")) :=
  C2_round_trip goHashers [] noSaveFaults (uploadOf (str "hello")) true true
    (sha256Hex goHashers (str "hello")) (by decide!) rfl

/-- C3: on content `c` readable at a path, `verifyFileIntegrity` returns an error exactly
when the lowercase hexadecimal SHA-256 of `c` is not the expected digest. Consequently,
when the bytes stored by a `saveFile` that returned `d` are replaced by bytes `c` of
another digest, the download of `d` is never served: it answers 500 `File integrity check
failed` whenever `Stat` does not fail for an outside reason. -/
theorem C3_read_integrity (H : Hashers) :
    (∀ (fs : FS) (renv : ReadFaults) (filePath d c : GoString),
      Open fs renv.openFile filePath = .ok (.file c) → renv.read = none →
      (verifyFileIntegrity H fs renv filePath d ≠ none ↔ sha256Hex H c ≠ d)) ∧
    (∀ (fs : FS) (env : SaveFaults) (fh : Upload) (pre post : Bool)
      (claims : List (GoString × GoString)) (d c : GoString) (renv : ReadFaults),
      (saveFile H fs env fh pre post claims).result = .ret (.ok d) →
      sha256Hex H c ≠ d →
      getFilePath d = Go.ret (objectPath d) ∧
      (renv.stat = none →
        download H (fsSet (saveFile H fs env fh pre post claims).fs (objectPath d) (.file c))
          renv d = Go.ret (.json 500 (str "error") (str "File integrity check failed"))) ∧
      (∀ served, download H
        (fsSet (saveFile H fs env fh pre post claims).fs (objectPath d) (.file c)) renv d
          ≠ Go.ret (.sendFile served))) := by
  constructor
  · intro fs renv filePath d c hopen hread
    unfold verifyFileIntegrity
    rw [hopen]
    simp only [readAll, hread]
    by_cases h : hexEncodeToString (H.sha256 c) = d
    · simp [h, sha256Hex]
    · simp [h, sha256Hex]
  · intro fs env fh pre post claims d c renv hput hdiff
    have hst := saveFile_stored hput
    have hw : walk (fsSet (saveFile H fs env fh pre post claims).fs (objectPath d) (.file c))
        (ancestors (objectPath d)) = none := by
      rw [ancestors_objectPath hst.plain.noSlash, walk_eq_none]
      intro a ha
      simp only [List.mem_cons, List.mem_singleton, List.not_mem_nil, or_false] at ha
      rcases ha with rfl | rfl
      · rw [fsGet_fsSet_ne _ _ (objectPath_ne_store _).symm]; exact hst.store
      · rw [fsGet_fsSet_ne _ _ (objectPath_ne_shardDir _).symm]; exact hst.shard
    have hg := fsGet_fsSet_same (saveFile H fs env fh pre post claims).fs (objectPath d)
      (Node.file c)
    have hver : ∃ e, verifyFileIntegrity H
        (fsSet (saveFile H fs env fh pre post claims).fs (objectPath d) (.file c)) renv
        (objectPath d) d = some e := by
      unfold verifyFileIntegrity Open
      cases renv.openFile with
      | some e => exact ⟨_, rfl⟩
      | none =>
        simp only [hw, hg, readAll]
        cases renv.read with
        | some e => exact ⟨_, rfl⟩
        | none =>
          have hne : hexEncodeToString (H.sha256 c) ≠ d := hdiff
          simp [hne]
    obtain ⟨e, he⟩ := hver
    refine ⟨hst.resolve, ?_, ?_⟩
    · intro hstat
      unfold download
      rw [hst.resolve]
      simp only [hstat, fileExists_of_file hw hg, he]
      simp
    · intro served
      unfold download
      rw [hst.resolve]
      simp only [he]
      split <;> simp

/-- C3, instance: `hello` is stored in the empty store and its bytes are replaced by
`jello`; the check of the file against the digest of `hello` fails and the download
answers 500. -/
theorem C3_read_integrity_witness :
    (verifyFileIntegrity goHashers
        [(str "store", Node.dir), (str "store/2c", Node.dir),
          (objectPath (sha256Hex goHashers (str "hello")), Node.file (str "jello"))]
        noReadFaults (objectPath (sha256Hex goHashers (str "hello")))
        (sha256Hex goHashers (str "hello")) ≠ none ↔
      sha256Hex goHashers (str "jello") ≠ sha256Hex goHashers (str "hello")) ∧
    download goHashers
      (fsSet (saveFile goHashers [] noSaveFaults (uploadOf (str "hello")) true true []).fs
        (objectPath (sha256Hex goHashers (str "hello"))) (.file (str "jello")))
      noReadFaults (sha256Hex goHashers (str "hello"))
        = Go.ret (.json 500 (str "error") (str "File integrity check failed")) :=
  ⟨(C3_read_integrity goHashers).1 _ noReadFaults _ _ (str "jello") (by decide!) rfl,
    ((C3_read_integrity goHashers).2 [] noSaveFaults (uploadOf (str "hello")) true true []
      (sha256Hex goHashers (str "hello")) (str "jello") noReadFaults (by decide!)
      (by decide!)).2.1 rfl⟩

/-- C6: two successive calls of `saveFile` on the same bytes that both return a digest,
the rewind of the stream failing in neither, return the same digest; the second call
leaves the file system exactly as the first left it, and the path of the digest holds one
regular file whose content is the bytes. -/
theorem C6_idempotent (H : Hashers) (fs : FS) (env1 env2 : SaveFaults) (fh1 fh2 : Upload)
    (pre1 post1 pre2 post2 : Bool) (claims1 claims2 : List (GoString × GoString))
    (d1 d2 : GoString) (hsame : fh2.content = fh1.content)
    (hput1 : (saveFile H fs env1 fh1 pre1 post1 claims1).result = .ret (.ok d1))
    (hput2 : (saveFile H (saveFile H fs env1 fh1 pre1 post1 claims1).fs env2 fh2 pre2 post2
      claims2).result = .ret (.ok d2))
    (hseek1 : fh1.seekErr = none) (hseek2 : fh2.seekErr = none) :
    d2 = d1 ∧
    (saveFile H (saveFile H fs env1 fh1 pre1 post1 claims1).fs env2 fh2 pre2 post2 claims2).fs
      = (saveFile H fs env1 fh1 pre1 post1 claims1).fs ∧
    getFilePath d1 = Go.ret (objectPath d1) ∧
    fsGet (saveFile H fs env1 fh1 pre1 post1 claims1).fs (objectPath d1)
      = some (.file fh1.content) := by
  have hs1 := saveFile_stored hput1
  have hs2 := saveFile_stored hput2
  have hd : d2 = d1 := by rw [hs1.digest, hs2.digest, hsame]
  subst hd
  have hobj : fsGet (saveFile H fs env1 fh1 pre1 post1 claims1).fs (objectPath d2)
      = some (.file fh1.content) := by
    have := hs1.object
    simpa [copyOffset, hseek1] using this
  refine ⟨rfl, ?_, hs1.resolve, hobj⟩
  obtain ⟨fs1, hchain, hfs⟩ := hs2.table
  have hdirs : ∀ a ∈ [str "store", shardDir d2],
      fsGet (saveFile H fs env1 fh1 pre1 post1 claims1).fs a = some Node.dir := by
    intro a ha
    simp only [List.mem_cons, List.mem_singleton, List.not_mem_nil, or_false] at ha
    rcases ha with rfl | rfl
    · exact hs1.store
    · exact hs1.shard
  rw [mkdirChain_of_dirs hdirs] at hchain
  simp only [Prod.mk.injEq, and_true] at hchain
  subst hchain
  rw [hfs]
  apply fsSet_of_fsGet
  simpa [copyOffset, hseek2, hsame] using hobj

/-- C6, instance: `hello` put twice into the empty store. -/
theorem C6_idempotent_witness :
    sha256Hex goHashers (str "hello") = sha256Hex goHashers (str "hello") ∧
    (saveFile goHashers
      (saveFile goHashers [] noSaveFaults (uploadOf (str "hello")) true true []).fs
      noSaveFaults (uploadOf (str "hello")) true true []).fs
      = (saveFile goHashers [] noSaveFaults (uploadOf (str "hello")) true true []).fs ∧
    getFilePath (sha256Hex goHashers (str "hello"))
      = Go.ret (objectPath (sha256Hex goHashers (str "hello"))) ∧
    fsGet (saveFile goHashers [] noSaveFaults (uploadOf (str "hello")) true true []).fs
      (objectPath (sha256Hex goHashers (str "hello"))) = some (.file (str "hello")) :=
  C6_idempotent goHashers [] noSaveFaults noSaveFaults (uploadOf (str "hello"))
    (uploadOf (str "hello")) true true true true [] [] (sha256Hex goHashers (str "hello"))
    (sha256Hex goHashers (str "hello")) rfl (by decide!) (by decide!) rfl rfl

/-- C7, what the code does when the rewind fails: the result of `file.Seek` is not looked
at. When every other step succeeds and `Seek` fails with `err`, `saveFile` returns the
digest of the content as a success, and the file it leaves at the path of that digest is
empty. -/
theorem C7_rewind_failure_swallowed (H : Hashers) (fs fs1 fs2 : FS) (env : SaveFaults)
    (fh : Upload) (pre post : Bool) (err : GoError)
    (ho : fh.openErr = none) (hr : fh.readErr = none) (hseek : fh.seekErr = some err)
    (hm : MkdirAll fs env.mkdirAll (shardDir (sha256Hex H fh.content)) = (fs1, none))
    (hc : Create fs1 env.create (objectPath (sha256Hex H fh.content)) = .ok fs2)
    (hcp : env.copy = none) :
    (saveFile H fs env fh pre post []).result = .ret (.ok (sha256Hex H fh.content)) ∧
    fsGet (saveFile H fs env fh pre post []).fs (objectPath (sha256Hex H fh.content))
      = some (.file []) := by
  rw [saveFile_verified H fs env fh pre post [] ho hr rfl]
  obtain ⟨h1, h2⟩ := persist_run fh pre post hm hc hcp
  refine ⟨h1, ?_⟩
  rw [h2, fsGet_fsSet_same]
  simp [copyOffset, hseek]

/-- C7, instance: `hello` uploaded to the empty store with a failing `Seek` is reported as
stored, and the stored file is empty. -/
theorem C7_rewind_failure_swallowed_witness :
    (saveFile goHashers [] noSaveFaults
      ⟨str "hello", none, none, some (.new (str "seek failed"))⟩ true true []).result
        = .ret (.ok (sha256Hex goHashers (str "hello"))) ∧
    fsGet (saveFile goHashers [] noSaveFaults
      ⟨str "hello", none, none, some (.new (str "seek failed"))⟩ true true []).fs
      (objectPath (sha256Hex goHashers (str "hello"))) = some (.file []) :=
  C7_rewind_failure_swallowed goHashers []
    [(str "store", Node.dir), (str "store/2c", Node.dir)]
    [(str "store", Node.dir), (str "store/2c", Node.dir),
      (objectPath (sha256Hex goHashers (str "hello")), Node.file [])]
    noSaveFaults ⟨str "hello", none, none, some (.new (str "seek failed"))⟩ true true
    (.new (str "seek failed")) rfl rfl rfl (by decide!) (by decide!) rfl

/-- C8, as stated, fails: `hello` is put into the empty store and the copy stops after two
bytes. The put returns the error, yet the path of the digest, absent before, is present
afterwards and holds `he`. -/
theorem C8_half_object_visible :
    fsGet [] (objectPath (sha256Hex goHashers (str "hello"))) = none ∧
    (saveFile goHashers [] (diskFullAfterTwo (objectPath (sha256Hex goHashers (str "hello"))))
      (uploadOf (str "hello")) true true []).result
      = .ret (.error (.path (str "write") (objectPath (sha256Hex goHashers (str "hello")))
          .ENOSPC)) ∧
    fsGet (saveFile goHashers [] (diskFullAfterTwo
      (objectPath (sha256Hex goHashers (str "hello")))) (uploadOf (str "hello")) true true
      []).fs (objectPath (sha256Hex goHashers (str "hello"))) = some (.file (str "he")) := by
  decide!

/-- C8, as the code has it: `saveFile` writes into the destination itself. When creating
the destination fails, `saveFile` returns the error and the path of the digest is as it
was before the call. When the copy fails once `n` bytes are written (the stream having
been rewound), `saveFile` returns the error and the path of the digest holds a regular
file with the first `n` bytes of the content, whatever was there before. -/
theorem C8_write_failure (H : Hashers) (fs fs1 : FS) (env : SaveFaults) (fh : Upload)
    (pre post : Bool) (claims : List (GoString × GoString))
    (ho : fh.openErr = none) (hr : fh.readErr = none)
    (hv : firstMismatch (calculatedHashes H fh.content) claims = none)
    (hm : MkdirAll fs env.mkdirAll (shardDir (sha256Hex H fh.content)) = (fs1, none)) :
    (∀ e, Create fs1 env.create (objectPath (sha256Hex H fh.content)) = .error e →
      (saveFile H fs env fh pre post claims).result = .ret (.error e) ∧
      fsGet (saveFile H fs env fh pre post claims).fs (objectPath (sha256Hex H fh.content))
        = fsGet fs (objectPath (sha256Hex H fh.content))) ∧
    (∀ fs2 n e, Create fs1 env.create (objectPath (sha256Hex H fh.content)) = .ok fs2 →
      env.copy = some (n, e) → fh.seekErr = none →
      (saveFile H fs env fh pre post claims).result = .ret (.error e) ∧
      fsGet (saveFile H fs env fh pre post claims).fs (objectPath (sha256Hex H fh.content))
        = some (.file (fh.content.take n))) := by
  rw [saveFile_verified H fs env fh pre post claims ho hr hv]
  constructor
  · intro e hc
    have hkeep : fsGet fs1 (objectPath (sha256Hex H fh.content))
        = fsGet fs (objectPath (sha256Hex H fh.content)) := by
      unfold MkdirAll at hm
      cases hf : env.mkdirAll with
      | some e1 => simp [hf] at hm
      | none =>
        simp only [hf] at hm
        obtain ⟨-, -, h3⟩ := mkdirChain_ok hm
        apply h3
        rw [ancestors_shardDir (sha256Hex_plain H fh.content).noSlash]
        simp only [List.cons_append, List.nil_append, List.mem_cons, List.mem_singleton,
          List.not_mem_nil, or_false, not_or]
        exact ⟨objectPath_ne_store _, objectPath_ne_shardDir _⟩
    unfold persist
    simp only [hm, hc]
    exact ⟨trivial, hkeep⟩
  · intro fs2 n e hc hcp hseek
    unfold persist
    simp only [hm, hc, copyToFile, hcp, fsGet_fsSet_same, copyOffset, hseek, List.drop_zero,
      and_self]

/-- C8, instance: the copy of `hello` into the empty store stops after two bytes. -/
theorem C8_write_failure_witness :
    (saveFile goHashers [] (diskFullAfterTwo (objectPath (sha256Hex goHashers (str "hello"))))
      (uploadOf (str "hello")) true true []).result
      = .ret (.error (.path (str "write") (objectPath (sha256Hex goHashers (str "hello")))
          .ENOSPC)) ∧
    fsGet (saveFile goHashers [] (diskFullAfterTwo
      (objectPath (sha256Hex goHashers (str "hello")))) (uploadOf (str "hello")) true true
      []).fs (objectPath (sha256Hex goHashers (str "hello")))
      = some (.file ((str "hello").take 2)) :=
  (C8_write_failure goHashers [] [(str "store", Node.dir), (str "store/2c", Node.dir)]
    (diskFullAfterTwo (objectPath (sha256Hex goHashers (str "hello"))))
    (uploadOf (str "hello")) true true [] rfl rfl rfl (by decide!)).2
    [(str "store", Node.dir), (str "store/2c", Node.dir),
      (objectPath (sha256Hex goHashers (str "hello")), Node.file [])]
    2 (.path (str "write") (objectPath (sha256Hex goHashers (str "hello"))) .ENOSPC)
    (by decide!) rfl rfl

/-- C10: after a `saveFile` that returned the digest `d` and a delete of `d` that answered
200, the path of `d` does not exist: `fileExists` is false on it, a download of `d`
answers 404 `File not found`, and so does a second delete, which leaves the file system
as it is (`Stat` not failing for an outside reason). -/
theorem C10_deleted_is_absent (H : Hashers) (fs fsDel : FS) (env : SaveFaults) (fh : Upload)
    (pre post : Bool) (claims : List (GoString × GoString)) (d : GoString)
    (denv : DeleteFaults) (renv : ReadFaults) (denv2 : DeleteFaults)
    (hput : (saveFile H fs env fh pre post claims).result = .ret (.ok d))
    (hdel : delete (saveFile H fs env fh pre post claims).fs denv d
      = (Go.ret (.json 200 (str "message") (str "File deleted")), fsDel))
    (hstat : renv.stat = none) (hstat2 : denv2.stat = none) :
    ∃ filePath, getFilePath d = Go.ret filePath ∧
      fsGet fsDel filePath = none ∧
      fileExists fsDel none filePath = false ∧
      download H fsDel renv d = Go.ret (.json 404 (str "error") (str "File not found")) ∧
      delete fsDel denv2 d = (Go.ret (.json 404 (str "error") (str "File not found")), fsDel) := by
  have hst := saveFile_stored hput
  have hfs : fsDel = fsErase (saveFile H fs env fh pre post claims).fs (objectPath d) := by
    unfold delete at hdel
    rw [hst.resolve] at hdel
    simp only at hdel
    split at hdel
    · simp at hdel
    · unfold deleteFile Remove at hdel
      cases hf : denv.remove with
      | some e =>
        simp only [hf, Prod.mk.injEq, Go.ret.injEq, Response.json.injEq] at hdel
        exact absurd hdel.1.1 (by decide!)
      | none =>
        simp only [hf, hst.walk, hst.object, Prod.mk.injEq, true_and] at hdel
        exact hdel.symm
  have hw : walk fsDel (ancestors (objectPath d)) = none := by
    rw [hfs, ancestors_objectPath hst.plain.noSlash, walk_eq_none]
    intro a ha
    simp only [List.mem_cons, List.mem_singleton, List.not_mem_nil, or_false] at ha
    rcases ha with rfl | rfl
    · rw [fsGet_fsErase_ne _ (objectPath_ne_store _).symm]; exact hst.store
    · rw [fsGet_fsErase_ne _ (objectPath_ne_shardDir _).symm]; exact hst.shard
  have hg : fsGet fsDel (objectPath d) = none := by rw [hfs]; exact fsGet_fsErase_same _ _
  have hex := fileExists_of_absent hw hg
  refine ⟨objectPath d, hst.resolve, hg, hex, ?_, ?_⟩
  · unfold download
    rw [hst.resolve]
    simp [hstat, hex]
  · unfold delete
    rw [hst.resolve]
    simp [hstat2, hex]

/-- C10, instance: `hello` put into the empty store, deleted, then asked for and deleted
again. -/
theorem C10_deleted_is_absent_witness :
    ∃ filePath, getFilePath (sha256Hex goHashers (str "hello")) = Go.ret filePath ∧
      fsGet [(str "store", Node.dir), (str "store/2c", Node.dir)] filePath = none ∧
      fileExists [(str "store", Node.dir), (str "store/2c", Node.dir)] none filePath = false ∧
      download goHashers [(str "store", Node.dir), (str "store/2c", Node.dir)] noReadFaults
        (sha256Hex goHashers (str "hello"))
        = Go.ret (.json 404 (str "error") (str "File not found")) ∧
      delete [(str "store", Node.dir), (str "store/2c", Node.dir)] noDeleteFaults
        (sha256Hex goHashers (str "hello"))
        = (Go.ret (.json 404 (str "error") (str "File not found")),
            [(str "store", Node.dir), (str "store/2c", Node.dir)]) :=
  C10_deleted_is_absent goHashers [] [(str "store", Node.dir), (str "store/2c", Node.dir)]
    noSaveFaults (uploadOf (str "hello")) true true [] (sha256Hex goHashers (str "hello"))
    noDeleteFaults noReadFaults noDeleteFaults (by decide!) (by decide!) rfl rfl

end BlobStore
